import Mathlib

/-!
Verification development for the WordGotchi storage engine
(`frontend/src/services/StorageService.ts`).

The engine persists three record kinds under namespaced keys of a browser
key-value store (`localStorage`), with an in-memory mirror fallback, write
debouncing/batching, record-count caps, and byte-size management
(compression and pruning).  This file gives a shallow embedding of the
engine as explicit state-passing functions over an `EngineState`, and proves
the specification claims about it.

Modelling conventions:
* JS objects obtained from `JSON.parse` / fed to `JSON.stringify` are
  modelled by the `Json` inductive; JSON numbers are rationals (every
  JS float that appears in a JSON document denotes a rational, and
  `JSON.parse (JSON.stringify x) = x` is taken as a property of the
  runtime, so stored values carry the parsed `Json` value together with
  the extra formatting length `pad` of their serialized text).
* A raw string written directly under a key that is not valid JSON is
  modelled by `StoredVal.malformed`; `JSON.parse` of it throws, i.e.
  `parseStored` returns `none`.
* `Math.floor (n * 0.8)` on a list length `n` is modelled by `4 * n / 5`
  (floor division); the two agree for every IEEE-754 double computation
  `n * 0.8` with `n ≤ 5000`, which covers every length a store can hold.
* The environment's write behaviour is a parameter `StoreBehavior`:
  `ok` (writes succeed), `failAll` (the availability probe's trial write
  throws, as do all writes), `quotaOnData` (the tiny probe write succeeds
  but data writes throw `QuotaExceededError`).  Reads and removals never
  throw; none of the claims depends on read/remove failures.
* JS `Array.prototype.slice(-k)` for a non-negative number `k` is
  modelled by `jsSliceNeg`; note that `slice(-0)` is `slice(0)`, which
  returns the whole array.
-/

/-- Model of a parsed JSON document / JS object. -/
inductive Json where
  | null
  | bool (b : Bool)
  | num (q : ℚ)
  | str (s : String)
  | arr (elements : List Json)
  | obj (fields : List (String × Json))

/-- Length of the JS string representation of a JSON number.  Exact digit
counts of float formatting are environment-defined; this integer/fraction
digit model is only used inside the byte-size accounting, and no claim
depends on its exact value for non-integers. -/
def numLen (q : ℚ) : Nat :=
  (if q.num < 0 then 1 else 0) + (Nat.toDigits 10 q.num.natAbs).length +
    (if q.den = 1 then 0 else 1 + (Nat.toDigits 10 q.den).length)

mutual

/-- Length of the most compact serialization `JSON.stringify j` (string
escape sequences are not modelled; keys and strings in this development
contain no characters needing escapes). -/
def jsonLen : Json → Nat
  | .null => 4
  | .bool true => 4
  | .bool false => 5
  | .num q => numLen q
  | .str s => s.length + 2
  | .arr xs => 1 + (match xs with | [] => 1 | _ => jsonLenElems xs)
  | .obj fs => 1 + (match fs with | [] => 1 | _ => jsonLenMembers fs)
termination_by structural j => j

/-- Serialized length of array elements, each followed by a separator
(`,` between elements, `]` after the last). -/
def jsonLenElems : List Json → Nat
  | [] => 0
  | j :: tl => jsonLen j + 1 + jsonLenElems tl
termination_by structural l => l

/-- Serialized length of object members (`"key":value` plus separator). -/
def jsonLenMembers : List (String × Json) → Nat
  | [] => 0
  | (k, v) :: tl => k.length + 4 + jsonLen v + jsonLenMembers tl
termination_by structural l => l

end

/-- JS property access `j.k` on a parsed JSON value: defined lookup on
objects (parsed objects have distinct keys), `undefined` (`none`)
otherwise. -/
def getField (j : Json) (k : String) : Option Json :=
  match j with
  | .obj fs => fs.lookup k
  | _ => none

/-- JS truthiness of a JSON value. -/
def jsTruthy : Json → Bool
  | .null => false
  | .bool b => b
  | .num q => decide (q ≠ 0)
  | .str s => !s.isEmpty
  | .arr _ => true
  | .obj _ => true

/-- Whether `typeof x === 'object'` holds for a parsed JSON value
(objects, arrays and `null`). -/
def typeofObject : Json → Bool
  | .obj _ => true
  | .arr _ => true
  | .null => true
  | _ => false

/-- Whether an optional property value is a string (`typeof x === 'string'`). -/
def fieldIsString : Option Json → Bool
  | some (.str _) => true
  | _ => false

/-- Whether an optional property value is a number (`typeof x === 'number'`). -/
def fieldIsNumber : Option Json → Bool
  | some (.num _) => true
  | _ => false

/-- Validation of a loaded Gotchi state, from `isValidGotchiState`
(StorageService.ts lines 624-634): the value is truthy, `id` is a string,
`stage === 1 || stage === 2`, `feedingCount` is a number, `emotionVector`
is truthy and of object type, and `createdAt` is a number. -/
def isValidGotchiState (j : Json) : Bool :=
  jsTruthy j &&
  fieldIsString (getField j "id") &&
  (match getField j "stage" with
   | some (.num q) => decide (q = 1) || decide (q = 2)
   | _ => false) &&
  fieldIsNumber (getField j "feedingCount") &&
  (match getField j "emotionVector" with
   | some v => jsTruthy v && typeofObject v
   | none => false) &&
  fieldIsNumber (getField j "createdAt")

/-- The seven-dimensional emotion vector with its update timestamp
(types.ts `EmotionVector`). -/
structure EmotionVector where
  joy : ℚ
  sadness : ℚ
  anger : ℚ
  fear : ℚ
  surprise : ℚ
  disgust : ℚ
  trust : ℚ
  lastUpdated : ℚ

/-- The persistent pet record (types.ts `GotchiState`). -/
structure GotchiState where
  id : String
  stage : Nat
  feedingCount : ℚ
  emotionVector : EmotionVector
  createdAt : ℚ

/-- The JS object corresponding to an `EmotionVector` value. -/
def emotionVectorToJson (e : EmotionVector) : Json :=
  .obj [("joy", .num e.joy), ("sadness", .num e.sadness), ("anger", .num e.anger),
        ("fear", .num e.fear), ("surprise", .num e.surprise), ("disgust", .num e.disgust),
        ("trust", .num e.trust), ("lastUpdated", .num e.lastUpdated)]

/-- The JS object corresponding to a `GotchiState` value. -/
def gotchiToJson (g : GotchiState) : Json :=
  .obj [("id", .str g.id), ("stage", .num g.stage), ("feedingCount", .num g.feedingCount),
        ("emotionVector", emotionVectorToJson g.emotionVector), ("createdAt", .num g.createdAt)]

/-- Validity of a pet state in the sense of the specification: stage in
{1,2} and every emotion value in [0,1] (the required fields are present
and correctly typed by construction of the structure). -/
def validGotchi (g : GotchiState) : Prop :=
  (g.stage = 1 ∨ g.stage = 2) ∧
  0 ≤ g.emotionVector.joy ∧ g.emotionVector.joy ≤ 1 ∧
  0 ≤ g.emotionVector.sadness ∧ g.emotionVector.sadness ≤ 1 ∧
  0 ≤ g.emotionVector.anger ∧ g.emotionVector.anger ≤ 1 ∧
  0 ≤ g.emotionVector.fear ∧ g.emotionVector.fear ≤ 1 ∧
  0 ≤ g.emotionVector.surprise ∧ g.emotionVector.surprise ≤ 1 ∧
  0 ≤ g.emotionVector.disgust ∧ g.emotionVector.disgust ≤ 1 ∧
  0 ≤ g.emotionVector.trust ∧ g.emotionVector.trust ≤ 1

/-- JS `arr.slice(-k)` for a non-negative number `k`: the last `k`
elements, except that `k = 0` gives `slice(-0) = slice(0)`, the whole
array. -/
def jsSliceNeg (k : Nat) (l : List α) : List α :=
  if k = 0 then l else l.drop (l.length - k)

/-- A value stored under a key: either a raw string that is not valid JSON
(`JSON.parse` throws on it), or valid JSON text carrying its parsed value
`j` and the length `pad` of its extraneous formatting beyond the compact
encoding (`JSON.stringify` output has `pad = 0`). -/
inductive StoredVal where
  | malformed (s : String)
  | json (j : Json) (pad : Nat)

/-- JSON.parse of a stored value: the parsed value, or `none` when parsing
throws. -/
def parseStored : StoredVal → Option Json
  | .malformed _ => none
  | .json j _ => some j

/-- Whether the stored string is falsy in JS, i.e. the empty string (the
serialization of a JSON value is never empty). -/
def storedFalsy : StoredVal → Bool
  | .malformed s => s.isEmpty
  | .json _ _ => false

/-- UTF-16 length of the stored text. -/
def StoredVal.len : StoredVal → Nat
  | .malformed s => s.length
  | .json j pad => jsonLen j + pad

/-- The three namespaced keys owned by the engine
(`wordgotchi.gotchi`, `wordgotchi.feedingHistory`, `wordgotchi.expressions`). -/
inductive SKey where
  | gotchi
  | feeding
  | expressions
deriving DecidableEq

/-- Length of the full key string for each record kind
(`"wordgotchi.gotchi"` = 17, `"wordgotchi.feedingHistory"` = 25,
`"wordgotchi.expressions"` = 22). -/
def keyLen : SKey → Nat
  | .gotchi => 17
  | .feeding => 25
  | .expressions => 22

/-- Contents of the backing store restricted to the engine's namespace:
one optional value per owned key (the engine never writes any other key;
its availability-probe key is written and immediately removed). -/
structure Slots where
  gotchi : Option StoredVal
  feeding : Option StoredVal
  expressions : Option StoredVal

/-- Read a slot. -/
def Slots.get (sl : Slots) : SKey → Option StoredVal
  | .gotchi => sl.gotchi
  | .feeding => sl.feeding
  | .expressions => sl.expressions

/-- Write a slot. -/
def Slots.set (sl : Slots) : SKey → Option StoredVal → Slots
  | .gotchi, v => { sl with gotchi := v }
  | .feeding, v => { sl with feeding := v }
  | .expressions, v => { sl with expressions := v }

/-- Behaviour of the underlying `localStorage` for this session:
`ok` — every write succeeds; `failAll` — every write throws (so already
the availability probe's trial write fails); `quotaOnData` — the tiny
probe write succeeds but every data write throws `QuotaExceededError`. -/
inductive StoreBehavior where
  | ok
  | failAll
  | quotaOnData
deriving DecidableEq

/-- Result of `localStorage.setItem`: success, `QuotaExceededError`, or
some other exception. -/
inductive WriteRes where
  | ok
  | quotaErr
  | otherErr
deriving DecidableEq

/-- The whole mutable module state of StorageService.ts: the memory-only
flag and in-memory mirror, the pending (debounced) writes and their
timers, the backing store contents within the engine's namespace, and the
session's write behaviour. -/
structure EngineState where
  behavior : StoreBehavior
  memoryOnlyMode : Bool
  memGotchi : Option Json
  memFeeding : List Json
  memExpressions : List Json
  pendingGotchi : Option Json
  pendingFeeding : List Json
  pendingExpressions : List Json
  gotchiTimer : Bool
  feedingTimer : Bool
  expressionTimer : Bool
  slots : Slots

/-- StorageService.ts lines 57-72, `isLocalStorageAvailable`: `false`
immediately in memory-only mode; otherwise probe with a trial write,
and on failure switch permanently to memory-only mode. -/
def isLocalStorageAvailable (s : EngineState) : Bool × EngineState :=
  if s.memoryOnlyMode then (false, s)
  else
    match s.behavior with
    | .failAll => (false, { s with memoryOnlyMode := true })
    | _ => (true, s)

/-- `localStorage.getItem` for an engine key (reads do not throw). -/
def getItem (k : SKey) (s : EngineState) : Option StoredVal :=
  s.slots.get k

/-- `localStorage.setItem` for an engine key: success or the thrown
error kind, per the session's behaviour. -/
def setItem (k : SKey) (v : StoredVal) (s : EngineState) : WriteRes × EngineState :=
  match s.behavior with
  | .ok => (.ok, { s with slots := s.slots.set k (some v) })
  | .failAll => (.otherErr, s)
  | .quotaOnData => (.quotaErr, s)

/-- `localStorage.removeItem` for an engine key (removals do not throw in
the modelled behaviours). -/
def removeItem (k : SKey) (s : EngineState) : EngineState :=
  { s with slots := s.slots.set k none }

/-- Size contribution of one key: `2 * (key.length + value.length)`,
0 when the key is absent (StorageService.ts line 566). -/
def slotSize (k : SKey) (v : Option StoredVal) : Nat :=
  match v with
  | none => 0
  | some val => 2 * (keyLen k + val.len)

/-- StorageService.ts lines 552-575, `checkStorageSize`: 0 when the store
is unavailable, else the summed two-bytes-per-character size of every
namespaced key. -/
def checkStorageSize (s : EngineState) : Nat × EngineState :=
  match isLocalStorageAvailable s with
  | (false, s1) => (0, s1)
  | (true, s1) =>
    (slotSize .gotchi s1.slots.gotchi + slotSize .feeding s1.slots.feeding +
       slotSize .expressions s1.slots.expressions, s1)

/-- StorageService.ts lines 228-264, `loadGotchi`: the memory mirror in
memory-only mode; otherwise read the key, treat an absent or empty value
as no state, and on a parse error or failed validation self-heal by
removing the key and returning `null`. -/
def loadGotchi (s : EngineState) : Option Json × EngineState :=
  match isLocalStorageAvailable s with
  | (false, s1) => (s1.memGotchi, s1)
  | (true, s1) =>
    match getItem .gotchi s1 with
    | none => (none, s1)
    | some v =>
      if storedFalsy v then (none, s1)
      else
        match parseStored v with
        | none => (none, removeItem .gotchi s1)
        | some j =>
          if isValidGotchiState j then (some j, s1)
          else (none, removeItem .gotchi s1)

/-- StorageService.ts lines 364-399, `getFeedingHistory`: last `limit`
records of the memory mirror in memory-only mode; otherwise read the key
(absent or empty value gives `[]`), self-heal on parse errors and
non-array shapes, and return `history.slice(-limit)`. -/
def getFeedingHistory (limit : Nat) (s : EngineState) : List Json × EngineState :=
  match isLocalStorageAvailable s with
  | (false, s1) => (jsSliceNeg limit s1.memFeeding, s1)
  | (true, s1) =>
    match getItem .feeding s1 with
    | none => ([], s1)
    | some v =>
      if storedFalsy v then ([], s1)
      else
        match parseStored v with
        | none => ([], removeItem .feeding s1)
        | some j =>
          match j with
          | .arr l => (jsSliceNeg limit l, s1)
          | _ => ([], removeItem .feeding s1)

/-- StorageService.ts lines 499-534, `getExpressions`: same structure as
`getFeedingHistory` for the expressions key. -/
def getExpressions (limit : Nat) (s : EngineState) : List Json × EngineState :=
  match isLocalStorageAvailable s with
  | (false, s1) => (jsSliceNeg limit s1.memExpressions, s1)
  | (true, s1) =>
    match getItem .expressions s1 with
    | none => ([], s1)
    | some v =>
      if storedFalsy v then ([], s1)
      else
        match parseStored v with
        | none => ([], removeItem .expressions s1)
        | some j =>
          match j with
          | .arr l => (jsSliceNeg limit l, s1)
          | _ => ([], removeItem .expressions s1)

/-- Maximum record counts (StorageService.ts lines 19-20). -/
def MAX_FEEDING_RECORDS : Nat := 1000

/-- Maximum stored expressions. -/
def MAX_EXPRESSIONS : Nat := 500

/-- Byte ceiling, 5 * 1024 * 1024 (StorageService.ts line 21). -/
def MAX_STORAGE_SIZE_BYTES : Nat := 5242880

/-- The 80% compression threshold `MAX_STORAGE_SIZE_BYTES * 0.8`
(exact in double arithmetic). -/
def COMPRESSION_THRESHOLD : Nat := 4194304

/-- StorageService.ts lines 589-619, `pruneOldData`: keep the newest
`Math.floor(length * 0.8)` feeding records and expressions (memory mirror
in memory-only mode, stored keys otherwise); a thrown write error aborts
the remaining work and is swallowed. -/
def pruneOldData (s : EngineState) : EngineState :=
  match isLocalStorageAvailable s with
  | (false, s1) =>
    let s2 := { s1 with memFeeding := jsSliceNeg (4 * s1.memFeeding.length / 5) s1.memFeeding }
    { s2 with memExpressions := jsSliceNeg (4 * s2.memExpressions.length / 5) s2.memExpressions }
  | (true, s1) =>
    match getFeedingHistory MAX_FEEDING_RECORDS s1 with
    | (h, s2) =>
      match setItem .feeding (.json (.arr (jsSliceNeg (4 * h.length / 5) h)) 0) s2 with
      | (.ok, s3) =>
        match getExpressions MAX_EXPRESSIONS s3 with
        | (e, s4) =>
          (setItem .expressions (.json (.arr (jsSliceNeg (4 * e.length / 5) e)) 0) s4).2
      | (_, s3) => s3

/-- Third stage of `compressStoredData` (StorageService.ts lines 123-127):
re-serialize the pet state compactly when one is present. -/
def compressGotchiStep (s : EngineState) : EngineState :=
  match loadGotchi s with
  | (none, s1) => s1
  | (some g, s1) => (setItem .gotchi (.json g 0) s1).2

/-- Second stage of `compressStoredData` (lines 117-121): re-serialize a
non-empty expressions store compactly; a thrown write error aborts the
remaining stages and is swallowed. -/
def compressExpressionsStep (s : EngineState) : EngineState :=
  match getExpressions MAX_EXPRESSIONS s with
  | (es, s1) =>
    if es.length > 0 then
      match setItem .expressions (.json (.arr es) 0) s1 with
      | (.ok, s2) => compressGotchiStep s2
      | (_, s2) => s2
    else compressGotchiStep s1

/-- StorageService.ts lines 105-133, `compressStoredData`: rewrite the
non-empty feeding store, then the non-empty expressions store, then the
pet state, each with the compact `JSON.stringify` serialization. -/
def compressStoredData (s : EngineState) : EngineState :=
  match isLocalStorageAvailable s with
  | (false, s1) => s1
  | (true, s1) =>
    match getFeedingHistory MAX_FEEDING_RECORDS s1 with
    | (h, s2) =>
      if h.length > 0 then
        match setItem .feeding (.json (.arr h) 0) s2 with
        | (.ok, s3) => compressExpressionsStep s3
        | (_, s3) => s3
      else compressExpressionsStep s2

/-- StorageService.ts lines 79-99, `checkAndPruneIfNeeded`: after a flush,
compress when the size is above the 80% threshold but within the ceiling,
then prune when the re-measured size still exceeds the ceiling. -/
def checkAndPruneIfNeeded (s : EngineState) : EngineState :=
  match isLocalStorageAvailable s with
  | (false, s1) => s1
  | (true, s1) =>
    match checkStorageSize s1 with
    | (currentSize, s2) =>
      let s3 :=
        if COMPRESSION_THRESHOLD < currentSize ∧ currentSize ≤ MAX_STORAGE_SIZE_BYTES
        then compressStoredData s2 else s2
      match checkStorageSize s3 with
      | (sizeAfter, s4) =>
        if MAX_STORAGE_SIZE_BYTES < sizeAfter then pruneOldData s4 else s4

/-- StorageService.ts lines 140-191, `saveGotchi`: record the pending
state; in memory-only mode store it in the mirror at once, otherwise
(re)start the debounce timer. -/
def saveGotchi (j : Json) (s : EngineState) : EngineState :=
  let s0 := { s with pendingGotchi := some j }
  match isLocalStorageAvailable s0 with
  | (false, s1) => { s1 with memGotchi := some j }
  | (true, s1) => { s1 with gotchiTimer := true }

/-- Body of the debounced `saveGotchi` callback (lines 156-190): write the
pending state; on `QuotaExceededError` prune and retry once, falling back
to memory-only mode if the retry fails; on any other error fall back to
memory-only mode directly. -/
def gotchiTimerFire (s : EngineState) : EngineState :=
  match s.pendingGotchi with
  | none => s
  | some j =>
    match setItem .gotchi (.json j 0) s with
    | (.ok, s1) =>
      let s2 := checkAndPruneIfNeeded s1
      { s2 with pendingGotchi := none }
    | (.quotaErr, s1) =>
      let s2 := pruneOldData s1
      match setItem .gotchi (.json j 0) s2 with
      | (.ok, s3) => { s3 with pendingGotchi := none }
      | (_, s3) => { s3 with memoryOnlyMode := true, memGotchi := some j, pendingGotchi := none }
    | (.otherErr, s1) =>
      { s1 with memoryOnlyMode := true, memGotchi := some j, pendingGotchi := none }

/-- StorageService.ts lines 196-221, `flushGotchiState`: cancel the timer
and write the pending state now; on any write error keep it in the memory
mirror (without entering memory-only mode). -/
def flushGotchiState (s : EngineState) : EngineState :=
  let s0 := { s with gotchiTimer := false }
  match s0.pendingGotchi with
  | none => s0
  | some j =>
    match isLocalStorageAvailable s0 with
    | (false, s1) => { s1 with memGotchi := some j, pendingGotchi := none }
    | (true, s1) =>
      match setItem .gotchi (.json j 0) s1 with
      | (.ok, s2) => { s2 with pendingGotchi := none }
      | (_, s2) => { s2 with memGotchi := some j, pendingGotchi := none }

/-- StorageService.ts lines 306-358, `flushFeedingRecords`: merge the
pending batch into the stored history, trim to the newest
`MAX_FEEDING_RECORDS`, and write; on `QuotaExceededError` prune and retry
once; on a failed retry or any other error fall back to memory-only mode
keeping the pending records. -/
def flushFeedingRecords (s : EngineState) : EngineState :=
  let s0 := { s with feedingTimer := false }
  if s0.pendingFeeding.isEmpty then s0
  else
    match isLocalStorageAvailable s0 with
    | (false, s1) =>
      let merged := s1.memFeeding ++ s1.pendingFeeding
      let trimmed := if MAX_FEEDING_RECORDS < merged.length
        then jsSliceNeg MAX_FEEDING_RECORDS merged else merged
      { s1 with memFeeding := trimmed, pendingFeeding := [] }
    | (true, s1) =>
      match getFeedingHistory MAX_FEEDING_RECORDS s1 with
      | (h, s2) =>
        let trimmed := jsSliceNeg MAX_FEEDING_RECORDS (h ++ s2.pendingFeeding)
        match setItem .feeding (.json (.arr trimmed) 0) s2 with
        | (.ok, s3) =>
          let s4 := checkAndPruneIfNeeded s3
          { s4 with pendingFeeding := [] }
        | (.quotaErr, s3) =>
          let s4 := pruneOldData s3
          match getFeedingHistory MAX_FEEDING_RECORDS s4 with
          | (h2, s5) =>
            let trimmed2 := jsSliceNeg MAX_FEEDING_RECORDS (h2 ++ s5.pendingFeeding)
            match setItem .feeding (.json (.arr trimmed2) 0) s5 with
            | (.ok, s6) => { s6 with pendingFeeding := [] }
            | (_, s6) =>
              { s6 with memoryOnlyMode := true,
                        memFeeding := s6.memFeeding ++ s6.pendingFeeding,
                        pendingFeeding := [] }
        | (.otherErr, s3) =>
          { s3 with memoryOnlyMode := true,
                    memFeeding := s3.memFeeding ++ s3.pendingFeeding,
                    pendingFeeding := [] }

/-- StorageService.ts lines 271-301, `saveFeedingRecord`: append to the
pending batch; in memory-only mode push to the capped mirror at once;
otherwise flush immediately at the batch-size threshold or (re)start the
debounce timer. -/
def saveFeedingRecord (j : Json) (s : EngineState) : EngineState :=
  let s0 := { s with pendingFeeding := s.pendingFeeding ++ [j] }
  match isLocalStorageAvailable s0 with
  | (false, s1) =>
    let mem := s1.memFeeding ++ [j]
    let mem2 := if MAX_FEEDING_RECORDS < mem.length then jsSliceNeg MAX_FEEDING_RECORDS mem else mem
    { s1 with memFeeding := mem2, pendingFeeding := [] }
  | (true, s1) =>
    if 10 ≤ s1.pendingFeeding.length then flushFeedingRecords s1
    else { s1 with feedingTimer := true }

/-- StorageService.ts lines 441-493, `flushExpressions`: same structure as
`flushFeedingRecords` with cap `MAX_EXPRESSIONS`. -/
def flushExpressions (s : EngineState) : EngineState :=
  let s0 := { s with expressionTimer := false }
  if s0.pendingExpressions.isEmpty then s0
  else
    match isLocalStorageAvailable s0 with
    | (false, s1) =>
      let merged := s1.memExpressions ++ s1.pendingExpressions
      let trimmed := if MAX_EXPRESSIONS < merged.length
        then jsSliceNeg MAX_EXPRESSIONS merged else merged
      { s1 with memExpressions := trimmed, pendingExpressions := [] }
    | (true, s1) =>
      match getExpressions MAX_EXPRESSIONS s1 with
      | (h, s2) =>
        let trimmed := jsSliceNeg MAX_EXPRESSIONS (h ++ s2.pendingExpressions)
        match setItem .expressions (.json (.arr trimmed) 0) s2 with
        | (.ok, s3) =>
          let s4 := checkAndPruneIfNeeded s3
          { s4 with pendingExpressions := [] }
        | (.quotaErr, s3) =>
          let s4 := pruneOldData s3
          match getExpressions MAX_EXPRESSIONS s4 with
          | (h2, s5) =>
            let trimmed2 := jsSliceNeg MAX_EXPRESSIONS (h2 ++ s5.pendingExpressions)
            match setItem .expressions (.json (.arr trimmed2) 0) s5 with
            | (.ok, s6) => { s6 with pendingExpressions := [] }
            | (_, s6) =>
              { s6 with memoryOnlyMode := true,
                        memExpressions := s6.memExpressions ++ s6.pendingExpressions,
                        pendingExpressions := [] }
        | (.otherErr, s3) =>
          { s3 with memoryOnlyMode := true,
                    memExpressions := s3.memExpressions ++ s3.pendingExpressions,
                    pendingExpressions := [] }

/-- StorageService.ts lines 406-436, `saveExpression`. -/
def saveExpression (j : Json) (s : EngineState) : EngineState :=
  let s0 := { s with pendingExpressions := s.pendingExpressions ++ [j] }
  match isLocalStorageAvailable s0 with
  | (false, s1) =>
    let mem := s1.memExpressions ++ [j]
    let mem2 := if MAX_EXPRESSIONS < mem.length then jsSliceNeg MAX_EXPRESSIONS mem else mem
    { s1 with memExpressions := mem2, pendingExpressions := [] }
  | (true, s1) =>
    if 10 ≤ s1.pendingExpressions.length then flushExpressions s1
    else { s1 with expressionTimer := true }

/-- StorageService.ts lines 540-544, `flushAll`. -/
def flushAll (s : EngineState) : EngineState :=
  flushExpressions (flushFeedingRecords (flushGotchiState s))

/-- StorageService.ts lines 580-582, `isMemoryOnlyMode`. -/
def isMemoryOnlyMode (s : EngineState) : Bool :=
  s.memoryOnlyMode

/-- Passage of the debounce delay: every scheduled timer callback fires
(in key order; no two callbacks for one key can be scheduled at once). -/
def runDebounceTimers (s : EngineState) : EngineState :=
  let s1 := if s.gotchiTimer then gotchiTimerFire { s with gotchiTimer := false } else s
  let s2 := if s1.feedingTimer then flushFeedingRecords s1 else s1
  if s2.expressionTimer then flushExpressions s2 else s2

/-- Modelled from the spec: top-level shape validation of an import
document.  The implementation of `importData` is absent from src (the
design document declares it on the `StorageService` interface and the
tests call it); per spec §4.5 the document must contain the pet, history
and expression fields matching the expected record shapes, reusing the
same structural validation as the load path. -/
def importShapeOk (j : Json) : Bool :=
  (match getField j "gotchi" with
   | some g => isValidGotchiState g
   | none => false) &&
  (match getField j "feedingHistory" with
   | some (.arr _) => true
   | _ => false) &&
  (match getField j "expressions" with
   | some (.arr _) => true
   | _ => false)

/-- Modelled from the spec: `importData(text) -> bool` — the source
implementation is absent from src.  Per spec §4.5: parse the text; on a
parse failure return `false` leaving all existing state untouched; on a
shape-validation failure return `false` without mutating state; on
success replace all three stores' persisted content wholesale and return
`true`. -/
def importData (text : StoredVal) (s : EngineState) : Bool × EngineState :=
  match parseStored text with
  | none => (false, s)
  | some j =>
    if importShapeOk j then
      let gotchiVal := match getField j "gotchi" with
        | some g => some (StoredVal.json g 0)
        | none => none
      let feedingVal := match getField j "feedingHistory" with
        | some f => some (StoredVal.json f 0)
        | none => none
      let exprVal := match getField j "expressions" with
        | some e => some (StoredVal.json e 0)
        | none => none
      (true, { s with slots := ⟨gotchiVal, feedingVal, exprVal⟩ })
    else (false, s)

/-- Record list currently held by a stored slot value (empty for an
absent, corrupted or non-array slot). -/
def storedList (v : Option StoredVal) : List Json :=
  match v with
  | some (.json (.arr l) _) => l
  | _ => []

/-- Records held by the persisted feeding-history store. -/
def feedingStored (s : EngineState) : List Json :=
  storedList s.slots.feeding

/-- Entries held by the persisted expressions store. -/
def expressionsStored (s : EngineState) : List Json :=
  storedList s.slots.expressions

/-- A fresh session: persistent storage healthy and empty, nothing
pending, no fallback. -/
def initState : EngineState :=
  { behavior := .ok, memoryOnlyMode := false,
    memGotchi := none, memFeeding := [], memExpressions := [],
    pendingGotchi := none, pendingFeeding := [], pendingExpressions := [],
    gotchiTimer := false, feedingTimer := false, expressionTimer := false,
    slots := ⟨none, none, none⟩ }

/-- One record-saving operation of the storage interface. -/
inductive SaveOp where
  | feed (j : Json)
  | expr (j : Json)

/-- Perform a save followed by an immediate `flushAll`. -/
def applyOp (s : EngineState) : SaveOp → EngineState
  | .feed j => flushAll (saveFeedingRecord j s)
  | .expr j => flushAll (saveExpression j s)

/-- Run a sequence of save-then-flush operations from a fresh session. -/
def runOps (ops : List SaveOp) : EngineState :=
  ops.foldl applyOp initState

/-- The feeding records a sequence of operations saves, in order. -/
def feedLog (ops : List SaveOp) : List Json :=
  ops.filterMap (fun op => match op with | .feed j => some j | .expr _ => none)

/-- The expressions a sequence of operations saves, in order. -/
def exprLog (ops : List SaveOp) : List Json :=
  ops.filterMap (fun op => match op with | .expr j => some j | .feed _ => none)

/-! ### Basic lemmas about the JS negative-index slice -/

theorem jsSliceNeg_suffix (k : Nat) (l : List α) : jsSliceNeg k l <:+ l := by
  unfold jsSliceNeg
  split
  · exact List.suffix_refl l
  · exact List.drop_suffix _ _

theorem jsSliceNeg_length_le (k : Nat) (l : List α) : (jsSliceNeg k l).length ≤ l.length :=
  (jsSliceNeg_suffix k l).length_le

theorem jsSliceNeg_length (k : Nat) (hk : k ≠ 0) (l : List α) :
    (jsSliceNeg k l).length = min k l.length := by
  unfold jsSliceNeg
  rw [if_neg hk, List.length_drop]
  omega

theorem jsSliceNeg_of_length_le {k : Nat} {l : List α} (h : l.length ≤ k) :
    jsSliceNeg k l = l := by
  unfold jsSliceNeg
  split
  · rfl
  · rw [Nat.sub_eq_zero_of_le h, List.drop_zero]

theorem jsSliceNeg_zero (l : List α) : jsSliceNeg 0 l = l := rfl

/-! ### Specification lemmas for the availability probe and the accessors -/

theorem isLocalStorageAvailable_of_ok {s : EngineState} (hm : s.memoryOnlyMode = false)
    (hb : s.behavior ≠ .failAll) : isLocalStorageAvailable s = (true, s) := by
  unfold isLocalStorageAvailable
  rw [hm]
  cases h : s.behavior
  · simp
  · exact absurd h hb
  · simp

theorem isLocalStorageAvailable_of_memory {s : EngineState} (hm : s.memoryOnlyMode = true) :
    isLocalStorageAvailable s = (false, s) := by
  unfold isLocalStorageAvailable
  rw [hm]
  simp

theorem getFeedingHistory_arr {s : EngineState} {l : List Json} {p : Nat} (limit : Nat)
    (hm : s.memoryOnlyMode = false) (hb : s.behavior ≠ .failAll)
    (hf : s.slots.feeding = some (.json (.arr l) p)) :
    getFeedingHistory limit s = (jsSliceNeg limit l, s) := by
  unfold getFeedingHistory
  rw [isLocalStorageAvailable_of_ok hm hb]
  simp [getItem, Slots.get, hf, storedFalsy, parseStored]

theorem getFeedingHistory_none {s : EngineState} (limit : Nat)
    (hm : s.memoryOnlyMode = false) (hb : s.behavior ≠ .failAll)
    (hf : s.slots.feeding = none) :
    getFeedingHistory limit s = ([], s) := by
  unfold getFeedingHistory
  rw [isLocalStorageAvailable_of_ok hm hb]
  simp [getItem, Slots.get, hf]

theorem getExpressions_arr {s : EngineState} {l : List Json} {p : Nat} (limit : Nat)
    (hm : s.memoryOnlyMode = false) (hb : s.behavior ≠ .failAll)
    (he : s.slots.expressions = some (.json (.arr l) p)) :
    getExpressions limit s = (jsSliceNeg limit l, s) := by
  unfold getExpressions
  rw [isLocalStorageAvailable_of_ok hm hb]
  simp [getItem, Slots.get, he, storedFalsy, parseStored]

theorem getExpressions_none {s : EngineState} (limit : Nat)
    (hm : s.memoryOnlyMode = false) (hb : s.behavior ≠ .failAll)
    (he : s.slots.expressions = none) :
    getExpressions limit s = ([], s) := by
  unfold getExpressions
  rw [isLocalStorageAvailable_of_ok hm hb]
  simp [getItem, Slots.get, he]

/-! ### Claim C10 -/

/-- Claim C10: whenever the engine is in memory-only mode,
`checkStorageSize()` returns 0, regardless of how much data the in-memory
mirror currently holds. -/
theorem c10_memory_mode_size_zero (s : EngineState) (hm : s.memoryOnlyMode = true) :
    checkStorageSize s = (0, s) := by
  unfold checkStorageSize
  rw [isLocalStorageAvailable_of_memory hm]

/-- Memory-only state holding data in the mirror, for the C10 witness. -/
def c10state : EngineState :=
  { initState with memoryOnlyMode := true, memFeeding := [Json.null, Json.bool true],
                   memGotchi := some Json.null }

theorem c10_memory_mode_size_zero_witness :
    c10state.memoryOnlyMode = true ∧ checkStorageSize c10state = (0, c10state) :=
  ⟨rfl, c10_memory_mode_size_zero c10state rfl⟩

/-! ### Claim C1 -/

/-- Claim C1: for every input text that is malformed JSON or fails
top-level shape validation, `importData` returns `false` and leaves all
existing persisted state untouched, so a subsequent load returns the
pre-call state.  (The `importData` implementation is modelled from the
spec, see `importData`.) -/
theorem c1_import_invalid_rejected (text : StoredVal) (s : EngineState)
    (h : parseStored text = none ∨ ∀ j, parseStored text = some j → importShapeOk j = false) :
    importData text s = (false, s) ∧ loadGotchi (importData text s).2 = loadGotchi s := by
  have hmain : importData text s = (false, s) := by
    unfold importData
    rcases h with h | h
    · rw [h]
    · cases hp : parseStored text with
      | none => rfl
      | some j => simp [h j hp]
  exact ⟨hmain, by rw [hmain]⟩

/-- The spec's canonical invalid import input. -/
def c1text : StoredVal := .malformed "\x7b not valid json"

theorem c1_import_invalid_rejected_witness :
    parseStored c1text = none ∧ importData c1text initState = (false, initState) :=
  ⟨rfl, (c1_import_invalid_rejected c1text initState (Or.inl rfl)).1⟩

/-! ### Claim C9 -/

/-- State whose persisted feeding history holds exactly one record and
whose expressions store holds one entry. -/
def oneEachState : EngineState :=
  { initState with
    slots := ⟨none, some (.json (.arr [Json.null]) 0), some (.json (.arr [Json.bool true]) 0)⟩ }

/-- Counterexample to claim C9 as stated: with one stored record,
`getFeedingHistory(0)` returns that record (JS `slice(-0)` returns the
whole array), so the result does not have at most `limit = 0` records. -/
theorem c9_limit_zero_cex :
    (getFeedingHistory 0 oneEachState).1 = [Json.null] ∧
      ¬((getFeedingHistory 0 oneEachState).1.length ≤ 0) :=
  ⟨rfl, by decide⟩

/-- Claim C9, amended: for every stored feeding history (and expressions
store) and every limit ≥ 1, the accessor returns the most-recent
`min limit N` entries in chronological (original) order; for `limit = 0`
it returns all stored entries rather than none. -/
theorem c9_history_limit_amended (s : EngineState) (l le : List Json) (p pe : Nat)
    (limit : Nat) (hm : s.memoryOnlyMode = false) (hb : s.behavior = .ok)
    (hf : s.slots.feeding = some (.json (.arr l) p))
    (he : s.slots.expressions = some (.json (.arr le) pe)) :
    ((getFeedingHistory limit s).1 <:+ l ∧
      (1 ≤ limit → (getFeedingHistory limit s).1.length = min limit l.length) ∧
      (limit = 0 → (getFeedingHistory limit s).1 = l)) ∧
    ((getExpressions limit s).1 <:+ le ∧
      (1 ≤ limit → (getExpressions limit s).1.length = min limit le.length) ∧
      (limit = 0 → (getExpressions limit s).1 = le)) := by
  have hb' : s.behavior ≠ .failAll := by rw [hb]; intro hx; cases hx
  rw [getFeedingHistory_arr limit hm hb' hf, getExpressions_arr limit hm hb' he]
  refine ⟨⟨jsSliceNeg_suffix _ _, fun h1 => ?_, fun h0 => ?_⟩,
          ⟨jsSliceNeg_suffix _ _, fun h1 => ?_, fun h0 => ?_⟩⟩
  · exact jsSliceNeg_length limit (by omega) l
  · rw [h0]; exact jsSliceNeg_zero l
  · exact jsSliceNeg_length limit (by omega) le
  · rw [h0]; exact jsSliceNeg_zero le

theorem c9_history_limit_amended_witness :
    oneEachState.memoryOnlyMode = false ∧
      (1 ≤ 1 → (getFeedingHistory 1 oneEachState).1.length = min 1 1) :=
  ⟨rfl, by
    have h := c9_history_limit_amended oneEachState [Json.null] [Json.bool true] 0 0 1
      rfl rfl rfl rfl
    exact fun h1 => h.1.2.1 h1⟩

/-! ### Claims C4 and C5 (pruning) -/

theorem pruneOldData_arr {s : EngineState} {f e : List Json} {pf pe : Nat}
    (hm : s.memoryOnlyMode = false) (hb : s.behavior = .ok)
    (hf : s.slots.feeding = some (.json (.arr f) pf)) (hflen : f.length ≤ 1000)
    (he : s.slots.expressions = some (.json (.arr e) pe)) (helen : e.length ≤ 500) :
    pruneOldData s =
      { s with slots := ⟨s.slots.gotchi,
          some (.json (.arr (jsSliceNeg (4 * f.length / 5) f)) 0),
          some (.json (.arr (jsSliceNeg (4 * e.length / 5) e)) 0)⟩ } := by
  obtain ⟨beh, mom, mg, mf, me, pg, pfd, pex, t1, t2, t3, sg, sfd, sex⟩ := s
  simp only at hm hb hf he
  subst hm hb hf he
  simp [pruneOldData, isLocalStorageAvailable, getFeedingHistory, getExpressions,
        getItem, setItem, Slots.get, Slots.set, storedFalsy, parseStored,
        MAX_FEEDING_RECORDS, MAX_EXPRESSIONS,
        jsSliceNeg_of_length_le hflen, jsSliceNeg_of_length_le helen]

/-- Counterexample to claim C4 as stated: pruning a store holding exactly
one entry leaves that entry in place (JS `slice(-0)` returns the whole
array), not `floor(1 * 0.8) = 0` entries. -/
theorem c4_prune_single_entry_cex :
    (feedingStored (pruneOldData oneEachState)).length = 1 ∧
      4 * (feedingStored oneEachState).length / 5 = 0 :=
  ⟨rfl, rfl⟩

/-- Claim C4, amended: for stores within their caps, `pruneOldData()`
leaves exactly `floor(N * 0.8)` entries, retaining the most recent ones,
except that a store with `N ≤ 1` entries (where `floor(N * 0.8) = 0`) is
left unchanged. -/
theorem c4_prune_ratio_amended (s : EngineState) (f e : List Json) (pf pe : Nat)
    (hm : s.memoryOnlyMode = false) (hb : s.behavior = .ok)
    (hf : s.slots.feeding = some (.json (.arr f) pf)) (hflen : f.length ≤ 1000)
    (he : s.slots.expressions = some (.json (.arr e) pe)) (helen : e.length ≤ 500) :
    ((feedingStored (pruneOldData s)).length
        = (if 2 ≤ f.length then 4 * f.length / 5 else f.length)) ∧
    feedingStored (pruneOldData s) <:+ f ∧
    ((expressionsStored (pruneOldData s)).length
        = (if 2 ≤ e.length then 4 * e.length / 5 else e.length)) ∧
    expressionsStored (pruneOldData s) <:+ e := by
  rw [pruneOldData_arr hm hb hf hflen he helen]
  refine ⟨?_, jsSliceNeg_suffix _ _, ?_, jsSliceNeg_suffix _ _⟩
  · show (jsSliceNeg (4 * f.length / 5) f).length = _
    split
    · rw [jsSliceNeg_length _ (by omega) f]; omega
    · have h0 : 4 * f.length / 5 = 0 := by omega
      rw [h0, jsSliceNeg_zero]
  · show (jsSliceNeg (4 * e.length / 5) e).length = _
    split
    · rw [jsSliceNeg_length _ (by omega) e]; omega
    · have h0 : 4 * e.length / 5 = 0 := by omega
      rw [h0, jsSliceNeg_zero]

/-- State with five stored feeding records and two stored expressions. -/
def fiveTwoState : EngineState :=
  { initState with
    slots := ⟨none,
      some (.json (.arr [Json.null, Json.null, Json.null, Json.null, Json.null]) 0),
      some (.json (.arr [Json.bool true, Json.bool false]) 0)⟩ }

theorem c4_prune_ratio_amended_witness :
    fiveTwoState.memoryOnlyMode = false ∧
      (feedingStored (pruneOldData fiveTwoState)).length = (if 2 ≤ 5 then 4 * 5 / 5 else 5) :=
  ⟨rfl,
    (c4_prune_ratio_amended fiveTwoState
      [Json.null, Json.null, Json.null, Json.null, Json.null]
      [Json.bool true, Json.bool false] 0 0 rfl rfl rfl (by decide) rfl (by decide)).1⟩


theorem jsSliceNeg_nil (k : Nat) : jsSliceNeg k ([] : List α) = [] := by
  unfold jsSliceNeg
  split
  · rfl
  · exact List.drop_nil

theorem getFeedingHistory_cases (limit : Nat) (s : EngineState)
    (hm : s.memoryOnlyMode = false) (hb : s.behavior ≠ .failAll) :
    getFeedingHistory limit s = (jsSliceNeg limit (feedingStored s), s) ∨
      (getFeedingHistory limit s = ([], removeItem .feeding s) ∧ feedingStored s = []) := by
  unfold getFeedingHistory
  rw [isLocalStorageAvailable_of_ok hm hb]
  cases hv : s.slots.feeding with
  | none => left; simp [getItem, Slots.get, hv, feedingStored, storedList, jsSliceNeg_nil]
  | some v =>
    rcases v with t | ⟨j, p⟩
    · by_cases ht : t.isEmpty
      · left
        simp [getItem, Slots.get, hv, storedFalsy, ht, feedingStored, storedList, jsSliceNeg_nil]
      · right
        simp [getItem, Slots.get, hv, storedFalsy, ht, parseStored, feedingStored, storedList]
    · rcases j with _ | b | q | st | l | fs
      · right; simp [getItem, Slots.get, hv, storedFalsy, parseStored, feedingStored, storedList]
      · right; simp [getItem, Slots.get, hv, storedFalsy, parseStored, feedingStored, storedList]
      · right; simp [getItem, Slots.get, hv, storedFalsy, parseStored, feedingStored, storedList]
      · right; simp [getItem, Slots.get, hv, storedFalsy, parseStored, feedingStored, storedList]
      · left; simp [getItem, Slots.get, hv, storedFalsy, parseStored, feedingStored, storedList]
      · right; simp [getItem, Slots.get, hv, storedFalsy, parseStored, feedingStored, storedList]

theorem getExpressions_cases (limit : Nat) (s : EngineState)
    (hm : s.memoryOnlyMode = false) (hb : s.behavior ≠ .failAll) :
    getExpressions limit s = (jsSliceNeg limit (expressionsStored s), s) ∨
      (getExpressions limit s = ([], removeItem .expressions s) ∧ expressionsStored s = []) := by
  unfold getExpressions
  rw [isLocalStorageAvailable_of_ok hm hb]
  cases hv : s.slots.expressions with
  | none => left; simp [getItem, Slots.get, hv, expressionsStored, storedList, jsSliceNeg_nil]
  | some v =>
    rcases v with t | ⟨j, p⟩
    · by_cases ht : t.isEmpty
      · left
        simp [getItem, Slots.get, hv, storedFalsy, ht, expressionsStored, storedList,
              jsSliceNeg_nil]
      · right
        simp [getItem, Slots.get, hv, storedFalsy, ht, parseStored, expressionsStored, storedList]
    · rcases j with _ | b | q | st | l | fs
      · right; simp [getItem, Slots.get, hv, storedFalsy, parseStored, expressionsStored, storedList]
      · right; simp [getItem, Slots.get, hv, storedFalsy, parseStored, expressionsStored, storedList]
      · right; simp [getItem, Slots.get, hv, storedFalsy, parseStored, expressionsStored, storedList]
      · right; simp [getItem, Slots.get, hv, storedFalsy, parseStored, expressionsStored, storedList]
      · left; simp [getItem, Slots.get, hv, storedFalsy, parseStored, expressionsStored, storedList]
      · right; simp [getItem, Slots.get, hv, storedFalsy, parseStored, expressionsStored, storedList]

theorem setItem_ok {s : EngineState} (hb : s.behavior = .ok) (k : SKey) (v : StoredVal) :
    setItem k v s = (.ok, { s with slots := s.slots.set k (some v) }) := by
  unfold setItem
  rw [hb]

theorem getFeedingHistory_snd_cases (limit : Nat) (s : EngineState) :
    (getFeedingHistory limit s).2 = s ∨
    (getFeedingHistory limit s).2 = removeItem .feeding s ∨
    (s.behavior = .failAll ∧ (getFeedingHistory limit s).2 = { s with memoryOnlyMode := true }) := by
  obtain ⟨beh, mom, mg, mf, me, pg, pfd, pex, t1, t2, t3, sg, sfd, sex⟩ := s
  cases mom with
  | true => left; simp [getFeedingHistory, isLocalStorageAvailable]
  | false =>
    cases beh with
    | failAll =>
      right; right
      exact ⟨rfl, by simp [getFeedingHistory, isLocalStorageAvailable]⟩
    | ok | quotaOnData =>
      rcases sfd with _ | (t | ⟨j, p⟩)
      · left; simp [getFeedingHistory, isLocalStorageAvailable, getItem, Slots.get]
      · by_cases ht : t.isEmpty
        · left
          simp [getFeedingHistory, isLocalStorageAvailable, getItem, Slots.get, storedFalsy, ht]
        · right; left
          simp [getFeedingHistory, isLocalStorageAvailable, getItem, Slots.get, storedFalsy,
                ht, parseStored, removeItem, Slots.set]
      · rcases j with _ | b | q | st | l | fs
        case arr =>
          left
          simp [getFeedingHistory, isLocalStorageAvailable, getItem, Slots.get, storedFalsy,
                parseStored]
        all_goals
          right; left
          simp [getFeedingHistory, isLocalStorageAvailable, getItem, Slots.get, storedFalsy,
                parseStored, removeItem, Slots.set]

theorem getExpressions_snd_cases (limit : Nat) (s : EngineState) :
    (getExpressions limit s).2 = s ∨
    (getExpressions limit s).2 = removeItem .expressions s ∨
    (s.behavior = .failAll ∧ (getExpressions limit s).2 = { s with memoryOnlyMode := true }) := by
  obtain ⟨beh, mom, mg, mf, me, pg, pfd, pex, t1, t2, t3, sg, sfd, sex⟩ := s
  cases mom with
  | true => left; simp [getExpressions, isLocalStorageAvailable]
  | false =>
    cases beh with
    | failAll =>
      right; right
      exact ⟨rfl, by simp [getExpressions, isLocalStorageAvailable]⟩
    | ok | quotaOnData =>
      rcases sex with _ | (t | ⟨j, p⟩)
      · left; simp [getExpressions, isLocalStorageAvailable, getItem, Slots.get]
      · by_cases ht : t.isEmpty
        · left
          simp [getExpressions, isLocalStorageAvailable, getItem, Slots.get, storedFalsy, ht]
        · right; left
          simp [getExpressions, isLocalStorageAvailable, getItem, Slots.get, storedFalsy,
                ht, parseStored, removeItem, Slots.set]
      · rcases j with _ | b | q | st | l | fs
        case arr =>
          left
          simp [getExpressions, isLocalStorageAvailable, getItem, Slots.get, storedFalsy,
                parseStored]
        all_goals
          right; left
          simp [getExpressions, isLocalStorageAvailable, getItem, Slots.get, storedFalsy,
                parseStored, removeItem, Slots.set]

theorem loadGotchi_snd_cases (s : EngineState) :
    (loadGotchi s).2 = s ∨
    (loadGotchi s).2 = removeItem .gotchi s ∨
    (s.behavior = .failAll ∧ (loadGotchi s).2 = { s with memoryOnlyMode := true }) := by
  obtain ⟨beh, mom, mg, mf, me, pg, pfd, pex, t1, t2, t3, sg, sfd, sex⟩ := s
  cases mom with
  | true => left; simp [loadGotchi, isLocalStorageAvailable]
  | false =>
    cases beh with
    | failAll =>
      right; right
      exact ⟨rfl, by simp [loadGotchi, isLocalStorageAvailable]⟩
    | ok | quotaOnData =>
      rcases sg with _ | (t | ⟨j, p⟩)
      · left; simp [loadGotchi, isLocalStorageAvailable, getItem, Slots.get]
      · by_cases ht : t.isEmpty
        · left
          simp [loadGotchi, isLocalStorageAvailable, getItem, Slots.get, storedFalsy, ht]
        · right; left
          simp [loadGotchi, isLocalStorageAvailable, getItem, Slots.get, storedFalsy,
                ht, parseStored, removeItem, Slots.set]
      · by_cases hv : isValidGotchiState j
        · left
          simp [loadGotchi, isLocalStorageAvailable, getItem, Slots.get, storedFalsy,
                parseStored, hv]
        · right; left
          simp [loadGotchi, isLocalStorageAvailable, getItem, Slots.get, storedFalsy,
                parseStored, hv, removeItem, Slots.set]

theorem getFeedingHistory_snd_behavior (limit : Nat) (s : EngineState) :
    ((getFeedingHistory limit s).2).behavior = s.behavior := by
  rcases getFeedingHistory_snd_cases limit s with h | h | ⟨_, h⟩ <;> rw [h] <;> rfl

theorem getFeedingHistory_snd_memoryOnlyMode (limit : Nat) (s : EngineState)
    (hb : s.behavior ≠ .failAll) :
    ((getFeedingHistory limit s).2).memoryOnlyMode = s.memoryOnlyMode := by
  rcases getFeedingHistory_snd_cases limit s with h | h | ⟨hf, _⟩
  · rw [h]
  · rw [h]; rfl
  · exact absurd hf hb

theorem getFeedingHistory_snd_expressions (limit : Nat) (s : EngineState) :
    ((getFeedingHistory limit s).2).slots.expressions = s.slots.expressions := by
  rcases getFeedingHistory_snd_cases limit s with h | h | ⟨_, h⟩ <;> rw [h] <;> rfl

theorem getFeedingHistory_snd_gotchi (limit : Nat) (s : EngineState) :
    ((getFeedingHistory limit s).2).slots.gotchi = s.slots.gotchi := by
  rcases getFeedingHistory_snd_cases limit s with h | h | ⟨_, h⟩ <;> rw [h] <;> rfl

theorem getExpressions_snd_behavior (limit : Nat) (s : EngineState) :
    ((getExpressions limit s).2).behavior = s.behavior := by
  rcases getExpressions_snd_cases limit s with h | h | ⟨_, h⟩ <;> rw [h] <;> rfl

theorem getExpressions_snd_memoryOnlyMode (limit : Nat) (s : EngineState)
    (hb : s.behavior ≠ .failAll) :
    ((getExpressions limit s).2).memoryOnlyMode = s.memoryOnlyMode := by
  rcases getExpressions_snd_cases limit s with h | h | ⟨hf, _⟩
  · rw [h]
  · rw [h]; rfl
  · exact absurd hf hb

theorem getExpressions_snd_feeding (limit : Nat) (s : EngineState) :
    ((getExpressions limit s).2).slots.feeding = s.slots.feeding := by
  rcases getExpressions_snd_cases limit s with h | h | ⟨_, h⟩ <;> rw [h] <;> rfl

theorem getExpressions_snd_gotchi (limit : Nat) (s : EngineState) :
    ((getExpressions limit s).2).slots.gotchi = s.slots.gotchi := by
  rcases getExpressions_snd_cases limit s with h | h | ⟨_, h⟩ <;> rw [h] <;> rfl

/-- The available-mode path of `pruneOldData` under healthy writes: the
feeding key is rewritten with the pruned history (on the state the
history read produced, which may have self-healed the key), then the
expressions key is rewritten with the pruned expressions read from that
intermediate state. -/
theorem pruneOldData_ok_eq (s : EngineState) (hm : s.memoryOnlyMode = false)
    (hb : s.behavior = .ok) :
    pruneOldData s =
      { (getExpressions MAX_EXPRESSIONS
          { (getFeedingHistory MAX_FEEDING_RECORDS s).2 with
            slots := ((getFeedingHistory MAX_FEEDING_RECORDS s).2).slots.set .feeding
              (some (.json (.arr (jsSliceNeg
                (4 * (getFeedingHistory MAX_FEEDING_RECORDS s).1.length / 5)
                (getFeedingHistory MAX_FEEDING_RECORDS s).1)) 0)) }).2 with
        slots := ((getExpressions MAX_EXPRESSIONS
          { (getFeedingHistory MAX_FEEDING_RECORDS s).2 with
            slots := ((getFeedingHistory MAX_FEEDING_RECORDS s).2).slots.set .feeding
              (some (.json (.arr (jsSliceNeg
                (4 * (getFeedingHistory MAX_FEEDING_RECORDS s).1.length / 5)
                (getFeedingHistory MAX_FEEDING_RECORDS s).1)) 0)) }).2).slots.set .expressions
          (some (.json (.arr (jsSliceNeg
            (4 * (getExpressions MAX_EXPRESSIONS
              { (getFeedingHistory MAX_FEEDING_RECORDS s).2 with
                slots := ((getFeedingHistory MAX_FEEDING_RECORDS s).2).slots.set .feeding
                  (some (.json (.arr (jsSliceNeg
                    (4 * (getFeedingHistory MAX_FEEDING_RECORDS s).1.length / 5)
                    (getFeedingHistory MAX_FEEDING_RECORDS s).1)) 0)) }).1.length / 5)
            (getExpressions MAX_EXPRESSIONS
              { (getFeedingHistory MAX_FEEDING_RECORDS s).2 with
                slots := ((getFeedingHistory MAX_FEEDING_RECORDS s).2).slots.set .feeding
                  (some (.json (.arr (jsSliceNeg
                    (4 * (getFeedingHistory MAX_FEEDING_RECORDS s).1.length / 5)
                    (getFeedingHistory MAX_FEEDING_RECORDS s).1)) 0)) }).1)) 0)) } := by
  have hb' : s.behavior ≠ .failAll := by rw [hb]; intro hx; cases hx
  unfold pruneOldData
  rw [isLocalStorageAvailable_of_ok hm hb']
  dsimp only
  rcases hF : getFeedingHistory MAX_FEEDING_RECORDS s with ⟨h1, s2⟩
  have hs2b : s2.behavior = .ok := by
    have hfr := getFeedingHistory_snd_behavior MAX_FEEDING_RECORDS s
    rw [hF] at hfr
    rw [hfr]
    exact hb
  dsimp only
  rw [setItem_ok hs2b]
  dsimp only
  set X : EngineState := { s2 with slots := s2.slots.set SKey.feeding (some (StoredVal.json (Json.arr (jsSliceNeg (4 * h1.length / 5) h1)) 0)) } with hX
  rcases hG : getExpressions MAX_EXPRESSIONS X with ⟨e1, s4⟩
  have hs4b : s4.behavior = .ok := by
    have hfr := getExpressions_snd_behavior MAX_EXPRESSIONS X
    rw [hG] at hfr
    rw [hfr, hX]
    exact hs2b
  dsimp only
  rw [setItem_ok hs4b]

theorem Slots.set_feeding_feeding (sl : Slots) (v : Option StoredVal) :
    (sl.set .feeding v).feeding = v := rfl

theorem Slots.set_feeding_expressions (sl : Slots) (v : Option StoredVal) :
    (sl.set .feeding v).expressions = sl.expressions := rfl

theorem Slots.set_feeding_gotchi (sl : Slots) (v : Option StoredVal) :
    (sl.set .feeding v).gotchi = sl.gotchi := rfl

theorem Slots.set_expressions_feeding (sl : Slots) (v : Option StoredVal) :
    (sl.set .expressions v).feeding = sl.feeding := rfl

theorem Slots.set_expressions_expressions (sl : Slots) (v : Option StoredVal) :
    (sl.set .expressions v).expressions = v := rfl

theorem Slots.set_expressions_gotchi (sl : Slots) (v : Option StoredVal) :
    (sl.set .expressions v).gotchi = sl.gotchi := rfl

theorem Slots.set_gotchi_feeding (sl : Slots) (v : Option StoredVal) :
    (sl.set .gotchi v).feeding = sl.feeding := rfl

theorem Slots.set_gotchi_expressions (sl : Slots) (v : Option StoredVal) :
    (sl.set .gotchi v).expressions = sl.expressions := rfl

theorem Slots.set_gotchi_gotchi (sl : Slots) (v : Option StoredVal) :
    (sl.set .gotchi v).gotchi = v := rfl

/-- The intermediate state of the available-mode `pruneOldData` path,
right after the feeding key has been rewritten with the pruned history. -/
def pruneMidState (s : EngineState) : EngineState :=
  { (getFeedingHistory MAX_FEEDING_RECORDS s).2 with
    slots := ((getFeedingHistory MAX_FEEDING_RECORDS s).2).slots.set .feeding
      (some (.json (.arr (jsSliceNeg (4 * (getFeedingHistory MAX_FEEDING_RECORDS s).1.length / 5)
        (getFeedingHistory MAX_FEEDING_RECORDS s).1)) 0)) }

theorem pruneOldData_ok_mid (s : EngineState) (hm : s.memoryOnlyMode = false)
    (hb : s.behavior = .ok) :
    pruneOldData s =
      { (getExpressions MAX_EXPRESSIONS (pruneMidState s)).2 with
        slots := ((getExpressions MAX_EXPRESSIONS (pruneMidState s)).2).slots.set .expressions
          (some (.json (.arr (jsSliceNeg
            (4 * (getExpressions MAX_EXPRESSIONS (pruneMidState s)).1.length / 5)
            (getExpressions MAX_EXPRESSIONS (pruneMidState s)).1)) 0)) } := by
  rw [pruneOldData_ok_eq s hm hb]
  rfl

theorem pruneMidState_expressions (s : EngineState) :
    (pruneMidState s).slots.expressions = s.slots.expressions := by
  unfold pruneMidState
  rw [Slots.set_feeding_expressions]
  exact getFeedingHistory_snd_expressions _ _

theorem pruneMidState_behavior (s : EngineState) :
    (pruneMidState s).behavior = s.behavior :=
  getFeedingHistory_snd_behavior _ _

theorem pruneMidState_memoryOnlyMode (s : EngineState) (hb : s.behavior ≠ .failAll) :
    (pruneMidState s).memoryOnlyMode = s.memoryOnlyMode :=
  getFeedingHistory_snd_memoryOnlyMode _ _ hb

theorem feedingStored_pruneOldData (s : EngineState) (hm : s.memoryOnlyMode = false)
    (hb : s.behavior = .ok) :
    feedingStored (pruneOldData s) =
      jsSliceNeg (4 * (getFeedingHistory MAX_FEEDING_RECORDS s).1.length / 5)
        (getFeedingHistory MAX_FEEDING_RECORDS s).1 := by
  rw [pruneOldData_ok_mid s hm hb]
  unfold feedingStored
  show storedList (((getExpressions MAX_EXPRESSIONS
    (pruneMidState s)).2).slots.set .expressions _).feeding = _
  rw [Slots.set_expressions_feeding, getExpressions_snd_feeding]
  rfl

theorem expressionsStored_pruneOldData (s : EngineState) (hm : s.memoryOnlyMode = false)
    (hb : s.behavior = .ok) :
    expressionsStored (pruneOldData s) =
      jsSliceNeg (4 * (getExpressions MAX_EXPRESSIONS (pruneMidState s)).1.length / 5)
        (getExpressions MAX_EXPRESSIONS (pruneMidState s)).1 := by
  rw [pruneOldData_ok_mid s hm hb]
  unfold expressionsStored
  show storedList (((getExpressions MAX_EXPRESSIONS
    (pruneMidState s)).2).slots.set .expressions _).expressions = _
  rw [Slots.set_expressions_expressions]
  rfl

/-- Claim C5: calling `pruneOldData()` on a feeding-history or
expressions store that is empty or holds exactly one entry is a no-op on
that store's contents, both for the persisted stores and for the
in-memory mirror stores. -/
theorem c5_prune_small_noop (s : EngineState) (hb : s.behavior = .ok) :
    (s.memoryOnlyMode = false → (feedingStored s).length ≤ 1 →
        feedingStored (pruneOldData s) = feedingStored s) ∧
    (s.memoryOnlyMode = false → (expressionsStored s).length ≤ 1 →
        expressionsStored (pruneOldData s) = expressionsStored s) ∧
    (s.memoryOnlyMode = true → s.memFeeding.length ≤ 1 →
        (pruneOldData s).memFeeding = s.memFeeding) ∧
    (s.memoryOnlyMode = true → s.memExpressions.length ≤ 1 →
        (pruneOldData s).memExpressions = s.memExpressions) := by
  have hb' : s.behavior ≠ .failAll := by rw [hb]; intro hx; cases hx
  refine ⟨?_, ?_, ?_, ?_⟩
  · intro hm hlen
    rw [feedingStored_pruneOldData s hm hb]
    rcases getFeedingHistory_cases MAX_FEEDING_RECORDS s hm hb' with h | ⟨h, hnil⟩ <;> rw [h]
    · dsimp only
      rw [jsSliceNeg_of_length_le (show (feedingStored s).length ≤ MAX_FEEDING_RECORDS by
        unfold MAX_FEEDING_RECORDS; omega)]
      have h0 : 4 * (feedingStored s).length / 5 = 0 := by omega
      rw [h0, jsSliceNeg_zero]
    · dsimp only
      rw [hnil, jsSliceNeg_nil]
  · intro hm hlen
    rw [expressionsStored_pruneOldData s hm hb]
    have hmX : (pruneMidState s).memoryOnlyMode = false := by
      rw [pruneMidState_memoryOnlyMode s hb']; exact hm
    have hbX : (pruneMidState s).behavior ≠ .failAll := by
      rw [pruneMidState_behavior s]; exact hb'
    have hsame : expressionsStored (pruneMidState s) = expressionsStored s := by
      unfold expressionsStored
      rw [pruneMidState_expressions]
    rcases getExpressions_cases MAX_EXPRESSIONS (pruneMidState s) hmX hbX with h | ⟨h, hnil⟩ <;>
      rw [h]
    · dsimp only
      rw [hsame]
      rw [jsSliceNeg_of_length_le (show (expressionsStored s).length ≤ MAX_EXPRESSIONS by
        unfold MAX_EXPRESSIONS; omega)]
      have h0 : 4 * (expressionsStored s).length / 5 = 0 := by omega
      rw [h0, jsSliceNeg_zero]
    · dsimp only
      rw [jsSliceNeg_nil, ← hsame, hnil]
  · intro hm hlen
    unfold pruneOldData
    rw [isLocalStorageAvailable_of_memory hm]
    dsimp only
    have h0 : 4 * s.memFeeding.length / 5 = 0 := by omega
    rw [h0, jsSliceNeg_zero]
  · intro hm hlen
    unfold pruneOldData
    rw [isLocalStorageAvailable_of_memory hm]
    dsimp only
    have h0 : 4 * s.memExpressions.length / 5 = 0 := by omega
    rw [h0, jsSliceNeg_zero]

theorem c5_prune_small_noop_witness :
    oneEachState.behavior = .ok ∧ oneEachState.memoryOnlyMode = false ∧
      feedingStored (pruneOldData oneEachState) = feedingStored oneEachState :=
  ⟨rfl, rfl, (c5_prune_small_noop oneEachState rfl).1 rfl (by decide)⟩

/-! ### Claim C7 (corruption self-healing on load) -/

/-- State whose pet key holds the empty string, which is not valid JSON
but is falsy in JS. -/
def emptyStrState : EngineState :=
  { initState with slots := ⟨some (.malformed ""), none, none⟩ }

/-- Counterexample to claim C7 as stated: with the empty string (malformed
JSON) stored under the pet key, `loadGotchi` returns `null` but does not
delete the key (`if (!serialized) return null` treats the empty string as
absent), contradicting "deletes the offending key". -/
theorem c7_empty_string_cex :
    (loadGotchi emptyStrState).1 = none ∧
      ((loadGotchi emptyStrState).2).slots.gotchi = some (.malformed "") :=
  ⟨rfl, rfl⟩

/-- Claim C7, amended: every load operation on a malformed or structurally
invalid stored value returns absent/empty and deletes the offending key —
except that a stored empty string is treated as an absent value: the load
returns absent/empty but leaves the key in place.  In all cases the
operation returns a value rather than propagating a parse error (the
embedded operations are total). -/
theorem c7_selfheal_amended (s : EngineState) (hm : s.memoryOnlyMode = false)
    (hb : s.behavior = .ok) :
    (∀ t, t ≠ "" → s.slots.gotchi = some (.malformed t) →
        (loadGotchi s).1 = none ∧ ((loadGotchi s).2).slots.gotchi = none) ∧
    (∀ j p, isValidGotchiState j = false → s.slots.gotchi = some (.json j p) →
        (loadGotchi s).1 = none ∧ ((loadGotchi s).2).slots.gotchi = none) ∧
    (s.slots.gotchi = some (.malformed "") →
        (loadGotchi s).1 = none ∧ (loadGotchi s).2 = s) ∧
    (∀ t limit, t ≠ "" → s.slots.feeding = some (.malformed t) →
        (getFeedingHistory limit s).1 = [] ∧
          ((getFeedingHistory limit s).2).slots.feeding = none) ∧
    (∀ j p limit, (∀ l, j ≠ .arr l) → s.slots.feeding = some (.json j p) →
        (getFeedingHistory limit s).1 = [] ∧
          ((getFeedingHistory limit s).2).slots.feeding = none) ∧
    (∀ limit, s.slots.feeding = some (.malformed "") →
        (getFeedingHistory limit s).1 = [] ∧ (getFeedingHistory limit s).2 = s) ∧
    (∀ t limit, t ≠ "" → s.slots.expressions = some (.malformed t) →
        (getExpressions limit s).1 = [] ∧
          ((getExpressions limit s).2).slots.expressions = none) ∧
    (∀ j p limit, (∀ l, j ≠ .arr l) → s.slots.expressions = some (.json j p) →
        (getExpressions limit s).1 = [] ∧
          ((getExpressions limit s).2).slots.expressions = none) ∧
    (∀ limit, s.slots.expressions = some (.malformed "") →
        (getExpressions limit s).1 = [] ∧ (getExpressions limit s).2 = s) := by
  have hb' : s.behavior ≠ .failAll := by rw [hb]; intro hx; cases hx
  refine ⟨?_, ?_, ?_, ?_, ?_, ?_, ?_, ?_, ?_⟩
  · intro t ht hg
    have hne : t.isEmpty = false := by
      cases hx : t.isEmpty
      · rfl
      · exact absurd ((String.isEmpty_iff t).mp hx) ht
    unfold loadGotchi
    rw [isLocalStorageAvailable_of_ok hm hb']
    simp [getItem, Slots.get, hg, storedFalsy, hne, parseStored, removeItem, Slots.set]
  · intro j p hv hg
    unfold loadGotchi
    rw [isLocalStorageAvailable_of_ok hm hb']
    simp [getItem, Slots.get, hg, storedFalsy, parseStored, hv, removeItem, Slots.set]
  · intro hg
    unfold loadGotchi
    rw [isLocalStorageAvailable_of_ok hm hb']
    simp [getItem, Slots.get, hg, storedFalsy, show ("".isEmpty) = true from rfl]
  · intro t limit ht hf
    have hne : t.isEmpty = false := by
      cases hx : t.isEmpty
      · rfl
      · exact absurd ((String.isEmpty_iff t).mp hx) ht
    unfold getFeedingHistory
    rw [isLocalStorageAvailable_of_ok hm hb']
    simp [getItem, Slots.get, hf, storedFalsy, hne, parseStored, removeItem, Slots.set]
  · intro j p limit hj hf
    unfold getFeedingHistory
    rw [isLocalStorageAvailable_of_ok hm hb']
    rcases j with _ | b | q | st | l | fs
    · simp [getItem, Slots.get, hf, storedFalsy, parseStored, removeItem, Slots.set]
    · simp [getItem, Slots.get, hf, storedFalsy, parseStored, removeItem, Slots.set]
    · simp [getItem, Slots.get, hf, storedFalsy, parseStored, removeItem, Slots.set]
    · simp [getItem, Slots.get, hf, storedFalsy, parseStored, removeItem, Slots.set]
    · exact absurd rfl (hj l)
    · simp [getItem, Slots.get, hf, storedFalsy, parseStored, removeItem, Slots.set]
  · intro limit hf
    unfold getFeedingHistory
    rw [isLocalStorageAvailable_of_ok hm hb']
    simp [getItem, Slots.get, hf, storedFalsy, show ("".isEmpty) = true from rfl]
  · intro t limit ht he
    have hne : t.isEmpty = false := by
      cases hx : t.isEmpty
      · rfl
      · exact absurd ((String.isEmpty_iff t).mp hx) ht
    unfold getExpressions
    rw [isLocalStorageAvailable_of_ok hm hb']
    simp [getItem, Slots.get, he, storedFalsy, hne, parseStored, removeItem, Slots.set]
  · intro j p limit hj he
    unfold getExpressions
    rw [isLocalStorageAvailable_of_ok hm hb']
    rcases j with _ | b | q | st | l | fs
    · simp [getItem, Slots.get, he, storedFalsy, parseStored, removeItem, Slots.set]
    · simp [getItem, Slots.get, he, storedFalsy, parseStored, removeItem, Slots.set]
    · simp [getItem, Slots.get, he, storedFalsy, parseStored, removeItem, Slots.set]
    · simp [getItem, Slots.get, he, storedFalsy, parseStored, removeItem, Slots.set]
    · exact absurd rfl (hj l)
    · simp [getItem, Slots.get, he, storedFalsy, parseStored, removeItem, Slots.set]
  · intro limit he
    unfold getExpressions
    rw [isLocalStorageAvailable_of_ok hm hb']
    simp [getItem, Slots.get, he, storedFalsy, show ("".isEmpty) = true from rfl]

/-- State whose pet key holds a malformed non-empty string. -/
def corruptState : EngineState :=
  { initState with slots := ⟨some (.malformed "xyz"), none, none⟩ }

theorem c7_selfheal_amended_witness :
    corruptState.memoryOnlyMode = false ∧ ("xyz" : String) ≠ "" ∧
      (loadGotchi corruptState).1 = none ∧
      ((loadGotchi corruptState).2).slots.gotchi = none :=
  ⟨rfl, by decide, (c7_selfheal_amended corruptState rfl rfl).1 "xyz" (by decide) rfl⟩

/-! ### Claim C2 (save/flush/load round trip) -/

theorem isValidGotchiState_toJson (g : GotchiState) (hv : validGotchi g) :
    isValidGotchiState (gotchiToJson g) = true := by
  have h1 : getField (gotchiToJson g) "id" = some (.str g.id) := rfl
  have h2 : getField (gotchiToJson g) "stage" = some (.num g.stage) := rfl
  have h3 : getField (gotchiToJson g) "feedingCount" = some (.num g.feedingCount) := rfl
  have h4 : getField (gotchiToJson g) "emotionVector"
      = some (emotionVectorToJson g.emotionVector) := rfl
  have h5 : getField (gotchiToJson g) "createdAt" = some (.num g.createdAt) := rfl
  unfold isValidGotchiState
  rw [h1, h2, h3, h4, h5]
  simp only [gotchiToJson, emotionVectorToJson, jsTruthy, typeofObject, fieldIsString,
             fieldIsNumber, Bool.and_true, Bool.true_and]
  rcases hv.1 with h | h <;> rw [h] <;> norm_num

theorem gotchiToJson_inj {g1 g2 : GotchiState} (h : gotchiToJson g1 = gotchiToJson g2) :
    g1 = g2 := by
  obtain ⟨i1, s1, f1, ⟨a1, b1, c1, d1, e1, x1, y1, z1⟩, t1⟩ := g1
  obtain ⟨i2, s2, f2, ⟨a2, b2, c2, d2, e2, x2, y2, z2⟩, t2⟩ := g2
  simp only [gotchiToJson, emotionVectorToJson, Json.obj.injEq, List.cons.injEq,
             Prod.mk.injEq, Json.str.injEq, Json.num.injEq, Nat.cast_inj, and_true,
             true_and] at h
  obtain ⟨hi, hs, hf, ⟨ha, hb2, hc, hd, he2, hx, hy, hz⟩, ht⟩ := h
  subst hi hs hf ha hb2 hc hd he2 hx hy hz ht
  rfl

/-- Claim C2: for every valid pet state, the sequence
`saveGotchi(s); flushAll(); loadGotchi()` returns exactly the saved
object, and the serialized object determines every field of the state
(so the loaded state is field-for-field equal to the saved one). -/
theorem c2_save_flush_load_roundtrip (s : EngineState) (g : GotchiState)
    (hm : s.memoryOnlyMode = false) (hb : s.behavior = .ok)
    (hf : s.pendingFeeding = []) (he : s.pendingExpressions = [])
    (hv : validGotchi g) :
    (loadGotchi (flushAll (saveGotchi (gotchiToJson g) s))).1 = some (gotchiToJson g) ∧
      ∀ g2, gotchiToJson g2 = gotchiToJson g → g2 = g := by
  refine ⟨?_, fun g2 hEq => gotchiToJson_inj hEq⟩
  have hval := isValidGotchiState_toJson g hv
  obtain ⟨beh, mom, mg, mf, me, pg, pfd, pex, t1, t2, t3, sg, sfd, sex⟩ := s
  simp only at hm hb hf he
  subst hm hb hf he
  simp [saveGotchi, flushAll, flushGotchiState, flushFeedingRecords, flushExpressions,
        loadGotchi, isLocalStorageAvailable, getItem, setItem, Slots.get, Slots.set,
        storedFalsy, parseStored, hval]

/-- A concrete valid pet state. -/
def wG : GotchiState := ⟨"a", 1, 0, ⟨0, 0, 0, 0, 0, 0, 0, 0⟩, 0⟩

theorem c2_save_flush_load_roundtrip_witness :
    validGotchi wG ∧
      (loadGotchi (flushAll (saveGotchi (gotchiToJson wG) initState))).1
        = some (gotchiToJson wG) :=
  ⟨by constructor
      · left; rfl
      · norm_num [wG],
   (c2_save_flush_load_roundtrip initState wG rfl rfl rfl rfl
      ⟨Or.inl rfl, by norm_num [wG]⟩).1⟩

/-! ### Claim C8 (fallback to the in-memory mirror) -/

/-- Claim C8: when every data write to the backing store fails — the
availability probe's write throws (`failAll`), or data writes are
rejected with `QuotaExceededError` so that the prune-then-retry path also
fails (`quotaOnData`) — a `saveGotchi` followed by the debounce delay and
a `loadGotchi` still returns the saved state via the in-memory mirror,
and `isMemoryOnlyMode()` reports `true` afterwards. -/
theorem c8_memory_fallback (s : EngineState) (j : Json)
    (hm : s.memoryOnlyMode = false) (hb : s.behavior ≠ .ok)
    (h1 : s.gotchiTimer = false) (h2 : s.feedingTimer = false)
    (h3 : s.expressionTimer = false) :
    (loadGotchi (runDebounceTimers (saveGotchi j s))).1 = some j ∧
      isMemoryOnlyMode (runDebounceTimers (saveGotchi j s)) = true := by
  obtain ⟨beh, mom, mg, mf, me, pg, pfd, pex, t1, t2, t3, sg, sfd, sex⟩ := s
  simp only at hm hb h1 h2 h3
  subst hm h1 h2 h3
  cases beh with
  | ok => exact absurd rfl hb
  | failAll =>
    simp [saveGotchi, runDebounceTimers, gotchiTimerFire, isLocalStorageAvailable,
          loadGotchi, isMemoryOnlyMode]
  | quotaOnData =>
    rcases sfd with _ | (t | ⟨jj, p⟩)
    · simp [saveGotchi, runDebounceTimers, gotchiTimerFire, pruneOldData,
            getFeedingHistory, getExpressions, isLocalStorageAvailable, getItem, setItem,
            removeItem, Slots.get, Slots.set, storedFalsy, parseStored, loadGotchi,
            isMemoryOnlyMode]
    · by_cases ht : t.isEmpty <;>
        simp [saveGotchi, runDebounceTimers, gotchiTimerFire, pruneOldData,
              getFeedingHistory, getExpressions, isLocalStorageAvailable, getItem, setItem,
              removeItem, Slots.get, Slots.set, storedFalsy, parseStored, loadGotchi,
              isMemoryOnlyMode, ht]
    · rcases jj with _ | b | q | st | l | fs <;>
        simp [saveGotchi, runDebounceTimers, gotchiTimerFire, pruneOldData,
              getFeedingHistory, getExpressions, isLocalStorageAvailable, getItem, setItem,
              removeItem, Slots.get, Slots.set, storedFalsy, parseStored, loadGotchi,
              isMemoryOnlyMode]

/-- A session whose backing store rejects every write, the probe's
trial write included. -/
def failState : EngineState := { initState with behavior := .failAll }

theorem c8_memory_fallback_witness :
    failState.memoryOnlyMode = false ∧ failState.behavior ≠ .ok ∧
      (loadGotchi (runDebounceTimers (saveGotchi Json.null failState))).1 = some Json.null ∧
      isMemoryOnlyMode (runDebounceTimers (saveGotchi Json.null failState)) = true := by
  have h := c8_memory_fallback failState Json.null rfl (by decide) rfl rfl rfl
  exact ⟨rfl, by decide, h.1, h.2⟩

/-! ### Claim C6 (compaction window) -/

/-- The compact rewrite of a stored pet value: the serialization is
re-emitted without formatting overhead. -/
def compactG : Option StoredVal → Option StoredVal
  | some (.json g _) => some (.json g 0)
  | v => v

/-- The compact rewrite of a stored record-list value: non-empty arrays
are re-emitted without formatting overhead; empty or absent stores are
skipped by `compressStoredData`. -/
def compactA : Option StoredVal → Option StoredVal
  | some (.json (.arr []) p) => some (.json (.arr []) p)
  | some (.json (.arr l) _) => some (.json (.arr l) 0)
  | v => v

/-- Total size of the engine's namespaced keys, as summed by
`checkStorageSize` when the store is available. -/
def storageSizeVal (s : EngineState) : Nat :=
  slotSize .gotchi s.slots.gotchi + slotSize .feeding s.slots.feeding +
    slotSize .expressions s.slots.expressions

theorem checkStorageSize_ok (s : EngineState) (hm : s.memoryOnlyMode = false)
    (hb : s.behavior ≠ .failAll) :
    checkStorageSize s = (storageSizeVal s, s) := by
  unfold checkStorageSize storageSizeVal
  rw [isLocalStorageAvailable_of_ok hm hb]

theorem loadGotchi_none {s : EngineState} (hm : s.memoryOnlyMode = false)
    (hb : s.behavior ≠ .failAll) (hg : s.slots.gotchi = none) :
    loadGotchi s = (none, s) := by
  unfold loadGotchi
  rw [isLocalStorageAvailable_of_ok hm hb]
  simp [getItem, Slots.get, hg]

theorem loadGotchi_valid {s : EngineState} {g : Json} {p : Nat}
    (hm : s.memoryOnlyMode = false) (hb : s.behavior ≠ .failAll)
    (hg : s.slots.gotchi = some (.json g p)) (hv : isValidGotchiState g = true) :
    loadGotchi s = (some g, s) := by
  unfold loadGotchi
  rw [isLocalStorageAvailable_of_ok hm hb]
  simp [getItem, Slots.get, hg, storedFalsy, parseStored, hv]

theorem Slots.set_gotchi_self (sl : Slots) : sl.set .gotchi sl.gotchi = sl := rfl

theorem Slots.set_feeding_self (sl : Slots) : sl.set .feeding sl.feeding = sl := rfl

theorem Slots.set_expressions_self (sl : Slots) : sl.set .expressions sl.expressions = sl := rfl

theorem compressGotchiStep_wf (X : EngineState) (hm : X.memoryOnlyMode = false)
    (hb : X.behavior = .ok)
    (hg : X.slots.gotchi = none ∨
      ∃ g p, X.slots.gotchi = some (.json g p) ∧ isValidGotchiState g = true) :
    compressGotchiStep X = { X with slots := X.slots.set .gotchi (compactG X.slots.gotchi) } := by
  have hb' : X.behavior ≠ .failAll := by rw [hb]; intro hx; cases hx
  rcases hg with hg | ⟨g, p, hg, hv⟩
  · unfold compressGotchiStep
    rw [loadGotchi_none hm hb' hg, hg]
    show X = { X with slots := X.slots.set SKey.gotchi none }
    rw [← hg, Slots.set_gotchi_self]
  · unfold compressGotchiStep
    rw [loadGotchi_valid hm hb' hg hv]
    dsimp only
    rw [setItem_ok hb, hg]
    rfl

theorem compressExpressionsStep_full (X : EngineState) (hm : X.memoryOnlyMode = false)
    (hb : X.behavior = .ok)
    (he : X.slots.expressions = none ∨
      ∃ l p, X.slots.expressions = some (.json (.arr l) p) ∧ l.length ≤ 500)
    (hg : X.slots.gotchi = none ∨
      ∃ g p, X.slots.gotchi = some (.json g p) ∧ isValidGotchiState g = true) :
    compressExpressionsStep X =
      { X with slots := ⟨compactG X.slots.gotchi, X.slots.feeding,
                         compactA X.slots.expressions⟩ } := by
  have hb' : X.behavior ≠ .failAll := by rw [hb]; intro hx; cases hx
  have hsl : X.slots.set SKey.gotchi (compactG X.slots.gotchi)
      = (⟨compactG X.slots.gotchi, X.slots.feeding, X.slots.expressions⟩ : Slots) := rfl
  rcases he with he | ⟨l, p, he, hlen⟩
  · unfold compressExpressionsStep
    rw [getExpressions_none MAX_EXPRESSIONS hm hb' he]
    dsimp only
    rw [if_neg (by simp)]
    rw [compressGotchiStep_wf X hm hb hg, hsl, he]
    rfl
  · unfold compressExpressionsStep
    rw [getExpressions_arr MAX_EXPRESSIONS hm hb' he,
        jsSliceNeg_of_length_le (show l.length ≤ MAX_EXPRESSIONS from hlen)]
    cases l with
    | nil =>
      dsimp only
      rw [if_neg (by simp)]
      rw [compressGotchiStep_wf X hm hb hg, hsl, he]
      rfl
    | cons a tl =>
      dsimp only
      rw [if_pos (by simp), setItem_ok hb]
      dsimp only
      rw [compressGotchiStep_wf { X with slots := X.slots.set SKey.expressions (some (StoredVal.json (Json.arr (a :: tl)) 0)) } hm hb (by rw [Slots.set_expressions_gotchi]; exact hg)]
      rw [he]
      rfl

theorem compressStoredData_wf (s : EngineState) (hm : s.memoryOnlyMode = false)
    (hb : s.behavior = .ok)
    (hg : s.slots.gotchi = none ∨
      ∃ g p, s.slots.gotchi = some (.json g p) ∧ isValidGotchiState g = true)
    (hf : s.slots.feeding = none ∨
      ∃ l p, s.slots.feeding = some (.json (.arr l) p) ∧ l.length ≤ 1000)
    (he : s.slots.expressions = none ∨
      ∃ l p, s.slots.expressions = some (.json (.arr l) p) ∧ l.length ≤ 500) :
    compressStoredData s =
      { s with slots := ⟨compactG s.slots.gotchi, compactA s.slots.feeding,
                         compactA s.slots.expressions⟩ } := by
  have hb' : s.behavior ≠ .failAll := by rw [hb]; intro hx; cases hx
  unfold compressStoredData
  rw [isLocalStorageAvailable_of_ok hm hb']
  dsimp only
  rcases hf with hf | ⟨l, p, hf, hlen⟩
  · rw [getFeedingHistory_none MAX_FEEDING_RECORDS hm hb' hf]
    dsimp only
    rw [if_neg (by simp)]
    rw [compressExpressionsStep_full s hm hb he hg, hf]
    rfl
  · rw [getFeedingHistory_arr MAX_FEEDING_RECORDS hm hb' hf,
        jsSliceNeg_of_length_le (show l.length ≤ MAX_FEEDING_RECORDS from hlen)]
    cases l with
    | nil =>
      dsimp only
      rw [if_neg (by simp)]
      rw [compressExpressionsStep_full s hm hb he hg, hf]
      rfl
    | cons a tl =>
      dsimp only
      rw [if_pos (by simp), setItem_ok hb]
      dsimp only
      rw [compressExpressionsStep_full { s with slots := s.slots.set SKey.feeding (some (StoredVal.json (Json.arr (a :: tl)) 0)) } hm hb (by rw [Slots.set_feeding_expressions]; exact he) (by rw [Slots.set_feeding_gotchi]; exact hg)]
      rw [hf]
      rfl

theorem slotSize_compactG_le (k : SKey) (v : Option StoredVal) :
    slotSize k (compactG v) ≤ slotSize k v := by
  rcases v with _ | (t | ⟨g, p⟩)
  · exact Nat.le_refl _
  · exact Nat.le_refl _
  · simp only [compactG, slotSize, StoredVal.len]
    omega

theorem slotSize_compactA_le (k : SKey) (v : Option StoredVal) :
    slotSize k (compactA v) ≤ slotSize k v := by
  rcases v with _ | (t | ⟨j, p⟩)
  · exact Nat.le_refl _
  · exact Nat.le_refl _
  · rcases j with _ | b | q | st | l | fs
    · exact Nat.le_refl _
    · exact Nat.le_refl _
    · exact Nat.le_refl _
    · exact Nat.le_refl _
    · cases l with
      | nil => exact Nat.le_refl _
      | cons a tl =>
        simp only [compactA, slotSize, StoredVal.len]
        omega
    · exact Nat.le_refl _

/-- State with a heavily padded pet serialization pushing the measured
size above the 5 MiB ceiling. -/
def c6cexState : EngineState :=
  { initState with slots := ⟨some (.json (gotchiToJson wG) 3000000), none, none⟩ }

/-- Counterexample to claim C6 as stated: a state whose measured size is
above the ceiling (hence above the 80% threshold), for which
`checkAndPruneIfNeeded` leaves the pet key's padded serialized form
untouched — the compaction step does not run for sizes above the ceiling
(`currentSize <= MAX_STORAGE_SIZE_BYTES` guards it). -/
theorem c6_no_compact_above_ceiling_cex :
    COMPRESSION_THRESHOLD < (checkStorageSize c6cexState).1 ∧
      MAX_STORAGE_SIZE_BYTES < (checkStorageSize c6cexState).1 ∧
      (checkAndPruneIfNeeded c6cexState).slots.gotchi
        = some (.json (gotchiToJson wG) 3000000) :=
  ⟨by decide, by decide, rfl⟩

/-- Claim C6, amended: after a flush, when the measured size exceeds 80%
of the 5 MiB ceiling and is at most the ceiling, the engine rewrites each
store's serialized form with the most compact encoding, discarding no
data (absent stores and empty record lists are skipped); for sizes above
the ceiling the compaction step does not run (pruning runs instead). -/
theorem c6_compaction_window (s : EngineState) (hm : s.memoryOnlyMode = false)
    (hb : s.behavior = .ok)
    (hg : s.slots.gotchi = none ∨
      ∃ g p, s.slots.gotchi = some (.json g p) ∧ isValidGotchiState g = true)
    (hf : s.slots.feeding = none ∨
      ∃ l p, s.slots.feeding = some (.json (.arr l) p) ∧ l.length ≤ 1000)
    (he : s.slots.expressions = none ∨
      ∃ l p, s.slots.expressions = some (.json (.arr l) p) ∧ l.length ≤ 500)
    (hlo : COMPRESSION_THRESHOLD < storageSizeVal s)
    (hhi : storageSizeVal s ≤ MAX_STORAGE_SIZE_BYTES) :
    (checkAndPruneIfNeeded s).slots =
      ⟨compactG s.slots.gotchi, compactA s.slots.feeding, compactA s.slots.expressions⟩ := by
  have hb' : s.behavior ≠ .failAll := by rw [hb]; intro hx; cases hx
  have hle : storageSizeVal { s with slots := (⟨compactG s.slots.gotchi,
      compactA s.slots.feeding, compactA s.slots.expressions⟩ : Slots) }
      ≤ storageSizeVal s := by
    unfold storageSizeVal
    dsimp only
    exact Nat.add_le_add (Nat.add_le_add (slotSize_compactG_le _ _)
      (slotSize_compactA_le _ _)) (slotSize_compactA_le _ _)
  unfold checkAndPruneIfNeeded
  rw [isLocalStorageAvailable_of_ok hm hb']
  dsimp only
  rw [checkStorageSize_ok s hm hb']
  dsimp only
  have hcond : (if COMPRESSION_THRESHOLD < storageSizeVal s ∧
      storageSizeVal s ≤ MAX_STORAGE_SIZE_BYTES then compressStoredData s else s)
      = compressStoredData s := if_pos ⟨hlo, hhi⟩
  rw [hcond, compressStoredData_wf s hm hb hg hf he]
  rw [checkStorageSize_ok { s with slots := (⟨compactG s.slots.gotchi, compactA s.slots.feeding, compactA s.slots.expressions⟩ : Slots) } hm hb']
  dsimp only
  rw [if_neg (by omega)]

/-- State with a padded non-empty feeding store whose measured size sits
between the 80% threshold and the ceiling. -/
def c6winState : EngineState :=
  { initState with slots := ⟨none, some (.json (.arr [Json.null]) 2100000), none⟩ }

theorem c6_compaction_window_witness :
    COMPRESSION_THRESHOLD < storageSizeVal c6winState ∧
      storageSizeVal c6winState ≤ MAX_STORAGE_SIZE_BYTES ∧
      (checkAndPruneIfNeeded c6winState).slots
        = ⟨none, some (.json (.arr [Json.null]) 0), none⟩ := by
  have h := c6_compaction_window c6winState rfl rfl (Or.inl rfl)
    (Or.inr ⟨[Json.null], 2100000, rfl, by decide⟩) (Or.inl rfl) (by decide) (by decide)
  exact ⟨by decide, by decide, h⟩

/-! ### Claim C3 (record-count caps under save-and-flush sequences) -/

theorem suffix_append_one {l L : List α} (h : l <:+ L) (a : α) : l ++ [a] <:+ L ++ [a] := by
  obtain ⟨t, ht⟩ := h
  exact ⟨t, by rw [← List.append_assoc, ht]⟩

theorem getFeedingHistory_snd_pendingGotchi (limit : Nat) (s : EngineState) :
    ((getFeedingHistory limit s).2).pendingGotchi = s.pendingGotchi := by
  rcases getFeedingHistory_snd_cases limit s with h | h | ⟨_, h⟩ <;> rw [h] <;> rfl

theorem getFeedingHistory_snd_pendingFeeding (limit : Nat) (s : EngineState) :
    ((getFeedingHistory limit s).2).pendingFeeding = s.pendingFeeding := by
  rcases getFeedingHistory_snd_cases limit s with h | h | ⟨_, h⟩ <;> rw [h] <;> rfl

theorem getFeedingHistory_snd_pendingExpressions (limit : Nat) (s : EngineState) :
    ((getFeedingHistory limit s).2).pendingExpressions = s.pendingExpressions := by
  rcases getFeedingHistory_snd_cases limit s with h | h | ⟨_, h⟩ <;> rw [h] <;> rfl

theorem getExpressions_snd_pendingGotchi (limit : Nat) (s : EngineState) :
    ((getExpressions limit s).2).pendingGotchi = s.pendingGotchi := by
  rcases getExpressions_snd_cases limit s with h | h | ⟨_, h⟩ <;> rw [h] <;> rfl

theorem getExpressions_snd_pendingFeeding (limit : Nat) (s : EngineState) :
    ((getExpressions limit s).2).pendingFeeding = s.pendingFeeding := by
  rcases getExpressions_snd_cases limit s with h | h | ⟨_, h⟩ <;> rw [h] <;> rfl

theorem getExpressions_snd_pendingExpressions (limit : Nat) (s : EngineState) :
    ((getExpressions limit s).2).pendingExpressions = s.pendingExpressions := by
  rcases getExpressions_snd_cases limit s with h | h | ⟨_, h⟩ <;> rw [h] <;> rfl

/-- Well-formedness of the persisted feeding store relative to the log of
records saved so far: absent, or a serialized array that is a suffix of
the log within the cap. -/
def FeedSlotWF (s : EngineState) (log : List Json) : Prop :=
  s.slots.feeding = none ∨
    ∃ l p, s.slots.feeding = some (.json (.arr l) p) ∧ l <:+ log ∧
      l.length ≤ MAX_FEEDING_RECORDS

/-- Well-formedness of the persisted expressions store relative to the
log of expressions saved so far. -/
def ExprSlotWF (s : EngineState) (log : List Json) : Prop :=
  s.slots.expressions = none ∨
    ∃ l p, s.slots.expressions = some (.json (.arr l) p) ∧ l <:+ log ∧
      l.length ≤ MAX_EXPRESSIONS

/-- The storage-side invariant maintained by save-and-flush sequences:
healthy writes, persistent mode, no pet key (these operation sequences
never write one), and cap-respecting suffix stores. -/
def CoreInv (s : EngineState) (flog elog : List Json) : Prop :=
  s.behavior = .ok ∧ s.memoryOnlyMode = false ∧ s.slots.gotchi = none ∧
    FeedSlotWF s flog ∧ ExprSlotWF s elog

theorem pruneOldData_core (X : EngineState) (flog elog : List Json)
    (h : CoreInv X flog elog) :
    CoreInv (pruneOldData X) flog elog ∧
    (pruneOldData X).pendingGotchi = X.pendingGotchi ∧
    (pruneOldData X).pendingFeeding = X.pendingFeeding ∧
    (pruneOldData X).pendingExpressions = X.pendingExpressions := by
  obtain ⟨hb, hm, hg, hf, he⟩ := h
  have hb' : X.behavior ≠ .failAll := by rw [hb]; intro hx; cases hx
  have hmidb : (pruneMidState X).behavior = .ok := by rw [pruneMidState_behavior]; exact hb
  have hmidb' : (pruneMidState X).behavior ≠ .failAll := by rw [hmidb]; intro hx; cases hx
  have hmidm : (pruneMidState X).memoryOnlyMode = false := by
    rw [pruneMidState_memoryOnlyMode X hb']; exact hm
  rw [pruneOldData_ok_mid X hm hb]
  refine ⟨⟨?_, ?_, ?_, ?_, ?_⟩, ?_, ?_, ?_⟩
  · show ((getExpressions MAX_EXPRESSIONS (pruneMidState X)).2).behavior = .ok
    rw [getExpressions_snd_behavior, pruneMidState_behavior]
    exact hb
  · show ((getExpressions MAX_EXPRESSIONS (pruneMidState X)).2).memoryOnlyMode = false
    rw [getExpressions_snd_memoryOnlyMode _ _ hmidb', pruneMidState_memoryOnlyMode X hb']
    exact hm
  · show (((getExpressions MAX_EXPRESSIONS (pruneMidState X)).2).slots.set .expressions _).gotchi
      = none
    rw [Slots.set_expressions_gotchi, getExpressions_snd_gotchi]
    show ((getFeedingHistory MAX_FEEDING_RECORDS X).2.slots.set .feeding _).gotchi = none
    rw [Slots.set_feeding_gotchi, getFeedingHistory_snd_gotchi]
    exact hg
  · right
    refine ⟨jsSliceNeg (4 * (getFeedingHistory MAX_FEEDING_RECORDS X).1.length / 5)
        (getFeedingHistory MAX_FEEDING_RECORDS X).1, 0, ?_, ?_, ?_⟩
    · show (((getExpressions MAX_EXPRESSIONS (pruneMidState X)).2).slots.set
          .expressions _).feeding = _
      rw [Slots.set_expressions_feeding, getExpressions_snd_feeding]
      rfl
    · rcases hf with hf | ⟨l, p, hf, hsuf, hlen⟩
      · rw [getFeedingHistory_none MAX_FEEDING_RECORDS hm hb' hf]
        simp [jsSliceNeg_nil, List.nil_suffix]
      · rw [getFeedingHistory_arr MAX_FEEDING_RECORDS hm hb' hf,
            jsSliceNeg_of_length_le (show l.length ≤ MAX_FEEDING_RECORDS from hlen)]
        exact (jsSliceNeg_suffix _ l).trans hsuf
    · rcases hf with hf | ⟨l, p, hf, hsuf, hlen⟩
      · rw [getFeedingHistory_none MAX_FEEDING_RECORDS hm hb' hf]
        simp [jsSliceNeg_nil]
      · rw [getFeedingHistory_arr MAX_FEEDING_RECORDS hm hb' hf,
            jsSliceNeg_of_length_le (show l.length ≤ MAX_FEEDING_RECORDS from hlen)]
        exact le_trans (jsSliceNeg_length_le _ l) hlen
  · right
    refine ⟨jsSliceNeg (4 * (getExpressions MAX_EXPRESSIONS (pruneMidState X)).1.length / 5)
        (getExpressions MAX_EXPRESSIONS (pruneMidState X)).1, 0, ?_, ?_, ?_⟩
    · show (((getExpressions MAX_EXPRESSIONS (pruneMidState X)).2).slots.set
          .expressions _).expressions = _
      rw [Slots.set_expressions_expressions]
    · rcases he with he | ⟨l, p, he, hsuf, hlen⟩
      · rw [getExpressions_none MAX_EXPRESSIONS hmidm hmidb'
            (by rw [pruneMidState_expressions]; exact he)]
        simp [jsSliceNeg_nil, List.nil_suffix]
      · rw [getExpressions_arr MAX_EXPRESSIONS hmidm hmidb'
            (by rw [pruneMidState_expressions]; exact he),
            jsSliceNeg_of_length_le (show l.length ≤ MAX_EXPRESSIONS from hlen)]
        exact (jsSliceNeg_suffix _ l).trans hsuf
    · rcases he with he | ⟨l, p, he, hsuf, hlen⟩
      · rw [getExpressions_none MAX_EXPRESSIONS hmidm hmidb'
            (by rw [pruneMidState_expressions]; exact he)]
        simp [jsSliceNeg_nil]
      · rw [getExpressions_arr MAX_EXPRESSIONS hmidm hmidb'
            (by rw [pruneMidState_expressions]; exact he),
            jsSliceNeg_of_length_le (show l.length ≤ MAX_EXPRESSIONS from hlen)]
        exact le_trans (jsSliceNeg_length_le _ l) hlen
  · show ((getExpressions MAX_EXPRESSIONS (pruneMidState X)).2).pendingGotchi = _
    rw [getExpressions_snd_pendingGotchi]
    show ((getFeedingHistory MAX_FEEDING_RECORDS X).2).pendingGotchi = _
    rw [getFeedingHistory_snd_pendingGotchi]
  · show ((getExpressions MAX_EXPRESSIONS (pruneMidState X)).2).pendingFeeding = _
    rw [getExpressions_snd_pendingFeeding]
    show ((getFeedingHistory MAX_FEEDING_RECORDS X).2).pendingFeeding = _
    rw [getFeedingHistory_snd_pendingFeeding]
  · show ((getExpressions MAX_EXPRESSIONS (pruneMidState X)).2).pendingExpressions = _
    rw [getExpressions_snd_pendingExpressions]
    show ((getFeedingHistory MAX_FEEDING_RECORDS X).2).pendingExpressions = _
    rw [getFeedingHistory_snd_pendingExpressions]

theorem compressStoredData_core (X : EngineState) (flog elog : List Json)
    (h : CoreInv X flog elog) :
    CoreInv (compressStoredData X) flog elog ∧
    (compressStoredData X).pendingGotchi = X.pendingGotchi ∧
    (compressStoredData X).pendingFeeding = X.pendingFeeding ∧
    (compressStoredData X).pendingExpressions = X.pendingExpressions := by
  obtain ⟨hb, hm, hg, hf, he⟩ := h
  have hfw : X.slots.feeding = none ∨
      ∃ l p, X.slots.feeding = some (.json (.arr l) p) ∧ l.length ≤ 1000 := by
    rcases hf with hf | ⟨l, p, hf, _, hlen⟩
    · exact Or.inl hf
    · exact Or.inr ⟨l, p, hf, hlen⟩
  have hew : X.slots.expressions = none ∨
      ∃ l p, X.slots.expressions = some (.json (.arr l) p) ∧ l.length ≤ 500 := by
    rcases he with he | ⟨l, p, he, _, hlen⟩
    · exact Or.inl he
    · exact Or.inr ⟨l, p, he, hlen⟩
  rw [compressStoredData_wf X hm hb (Or.inl hg) hfw hew]
  refine ⟨⟨hb, hm, by rw [hg]; rfl, ?_, ?_⟩, rfl, rfl, rfl⟩
  · rcases hf with hf | ⟨l, p, hf, hsuf, hlen⟩
    · left
      show compactA X.slots.feeding = none
      rw [hf]
      rfl
    · cases l with
      | nil =>
        right
        refine ⟨[], p, ?_, List.nil_suffix, by simp⟩
        show compactA X.slots.feeding = _
        rw [hf]
        rfl
      | cons a tl =>
        right
        refine ⟨a :: tl, 0, ?_, hsuf, hlen⟩
        show compactA X.slots.feeding = _
        rw [hf]
        rfl
  · rcases he with he | ⟨l, p, he, hsuf, hlen⟩
    · left
      show compactA X.slots.expressions = none
      rw [he]
      rfl
    · cases l with
      | nil =>
        right
        refine ⟨[], p, ?_, List.nil_suffix, by simp⟩
        show compactA X.slots.expressions = _
        rw [he]
        rfl
      | cons a tl =>
        right
        refine ⟨a :: tl, 0, ?_, hsuf, hlen⟩
        show compactA X.slots.expressions = _
        rw [he]
        rfl

theorem checkAndPruneIfNeeded_core (X : EngineState) (flog elog : List Json)
    (h : CoreInv X flog elog) :
    CoreInv (checkAndPruneIfNeeded X) flog elog ∧
    (checkAndPruneIfNeeded X).pendingGotchi = X.pendingGotchi ∧
    (checkAndPruneIfNeeded X).pendingFeeding = X.pendingFeeding ∧
    (checkAndPruneIfNeeded X).pendingExpressions = X.pendingExpressions := by
  obtain ⟨hb, hm, hg, hf, he⟩ := h
  have hb' : X.behavior ≠ .failAll := by rw [hb]; intro hx; cases hx
  unfold checkAndPruneIfNeeded
  rw [isLocalStorageAvailable_of_ok hm hb']
  dsimp only
  rw [checkStorageSize_ok X hm hb']
  dsimp only
  by_cases hcond : COMPRESSION_THRESHOLD < storageSizeVal X ∧
      storageSizeVal X ≤ MAX_STORAGE_SIZE_BYTES
  · have hceq : (if COMPRESSION_THRESHOLD < storageSizeVal X ∧
        storageSizeVal X ≤ MAX_STORAGE_SIZE_BYTES then compressStoredData X else X)
        = compressStoredData X := if_pos hcond
    rw [hceq]
    have hc := compressStoredData_core X flog elog ⟨hb, hm, hg, hf, he⟩
    have hcb' : (compressStoredData X).behavior ≠ .failAll := by
      rw [hc.1.1]; intro hx; cases hx
    rw [checkStorageSize_ok (compressStoredData X) hc.1.2.1 hcb']
    dsimp only
    by_cases hover : MAX_STORAGE_SIZE_BYTES < storageSizeVal (compressStoredData X)
    · rw [if_pos hover]
      have hp := pruneOldData_core (compressStoredData X) flog elog hc.1
      refine ⟨hp.1, ?_, ?_, ?_⟩
      · rw [hp.2.1, hc.2.1]
      · rw [hp.2.2.1, hc.2.2.1]
      · rw [hp.2.2.2, hc.2.2.2]
    · rw [if_neg hover]
      exact hc
  · have hceq : (if COMPRESSION_THRESHOLD < storageSizeVal X ∧
        storageSizeVal X ≤ MAX_STORAGE_SIZE_BYTES then compressStoredData X else X)
        = X := if_neg hcond
    rw [hceq]
    rw [checkStorageSize_ok X hm hb']
    dsimp only
    by_cases hover : MAX_STORAGE_SIZE_BYTES < storageSizeVal X
    · rw [if_pos hover]
      exact pruneOldData_core X flog elog ⟨hb, hm, hg, hf, he⟩
    · rw [if_neg hover]
      exact ⟨⟨hb, hm, hg, hf, he⟩, rfl, rfl, rfl⟩

theorem flushExpressions_noPending (K : EngineState) (hpe : K.pendingExpressions = []) :
    flushExpressions K = { K with expressionTimer := false } := by
  unfold flushExpressions
  simp [hpe]

theorem flushTail_core (Y : EngineState) (flog elog : List Json) (hY : CoreInv Y flog elog)
    (hpg : Y.pendingGotchi = none) (hpe : Y.pendingExpressions = []) :
    CoreInv (flushExpressions { checkAndPruneIfNeeded Y with pendingFeeding := [] }) flog elog ∧
    (flushExpressions { checkAndPruneIfNeeded Y with
        pendingFeeding := [] }).pendingGotchi = none ∧
    (flushExpressions { checkAndPruneIfNeeded Y with
        pendingFeeding := [] }).pendingFeeding = [] ∧
    (flushExpressions { checkAndPruneIfNeeded Y with
        pendingFeeding := [] }).pendingExpressions = [] := by
  have hK := checkAndPruneIfNeeded_core Y flog elog hY
  have hKpe : ({ checkAndPruneIfNeeded Y with
      pendingFeeding := ([] : List Json) }).pendingExpressions = [] := by
    show (checkAndPruneIfNeeded Y).pendingExpressions = []
    rw [hK.2.2.2, hpe]
  rw [flushExpressions_noPending _ hKpe]
  refine ⟨hK.1, ?_, rfl, ?_⟩
  · show (checkAndPruneIfNeeded Y).pendingGotchi = none
    rw [hK.2.1, hpg]
  · show (checkAndPruneIfNeeded Y).pendingExpressions = []
    rw [hK.2.2.2, hpe]

theorem applyOp_feed_core (s : EngineState) (flog elog : List Json) (j : Json)
    (h : CoreInv s flog elog) (hpg : s.pendingGotchi = none)
    (hpf : s.pendingFeeding = []) (hpe : s.pendingExpressions = []) :
    CoreInv (applyOp s (.feed j)) (flog ++ [j]) elog ∧
    (applyOp s (.feed j)).pendingGotchi = none ∧
    (applyOp s (.feed j)).pendingFeeding = [] ∧
    (applyOp s (.feed j)).pendingExpressions = [] := by
  obtain ⟨hb, hm, hg, hf, he⟩ := h
  obtain ⟨beh, mom, mg, mf, me, pg, pfd, pex, t1, t2, t3, sg, sfd, sex⟩ := s
  simp only at hb hm hg hpg hpf hpe
  subst hb hm hg hpg hpf hpe
  unfold applyOp flushAll
  rcases hf with hf | ⟨l, p, hf, hsuf, hlen⟩ <;> simp only at hf <;> subst hf
  · simp only [saveFeedingRecord, flushGotchiState, flushFeedingRecords,
          isLocalStorageAvailable, getFeedingHistory, getItem, setItem, Slots.get,
          Slots.set, storedFalsy, parseStored]
    simp
    exact flushTail_core _ (flog ++ [j]) elog
      ⟨rfl, rfl, rfl,
        Or.inr ⟨jsSliceNeg MAX_FEEDING_RECORDS [j], 0, rfl,
          by
            rw [jsSliceNeg_of_length_le
              (by simp [MAX_FEEDING_RECORDS] : ([j] : List Json).length ≤ MAX_FEEDING_RECORDS)]
            exact List.suffix_append flog [j],
          le_trans (jsSliceNeg_length_le _ _) (by simp [MAX_FEEDING_RECORDS])⟩,
        he⟩ rfl rfl
  · simp only [saveFeedingRecord, flushGotchiState, flushFeedingRecords,
          isLocalStorageAvailable, getFeedingHistory, getItem, setItem, Slots.get,
          Slots.set, storedFalsy, parseStored, jsSliceNeg_of_length_le hlen]
    simp [jsSliceNeg_of_length_le hlen]
    exact flushTail_core _ (flog ++ [j]) elog
      ⟨rfl, rfl, rfl,
        Or.inr ⟨jsSliceNeg MAX_FEEDING_RECORDS (l ++ [j]), 0, rfl,
          (jsSliceNeg_suffix _ _).trans (suffix_append_one hsuf j),
          le_trans (le_of_eq (jsSliceNeg_length _ (by decide) _)) (Nat.min_le_left _ _)⟩,
        he⟩ rfl rfl

theorem exprTail_core (Y : EngineState) (flog elog : List Json) (hY : CoreInv Y flog elog)
    (hpg : Y.pendingGotchi = none) (hpf : Y.pendingFeeding = []) :
    CoreInv { checkAndPruneIfNeeded Y with pendingExpressions := [] } flog elog ∧
    ({ checkAndPruneIfNeeded Y with pendingExpressions := [] }
        : EngineState).pendingGotchi = none ∧
    ({ checkAndPruneIfNeeded Y with pendingExpressions := [] }
        : EngineState).pendingFeeding = [] ∧
    ({ checkAndPruneIfNeeded Y with pendingExpressions := [] }
        : EngineState).pendingExpressions = [] := by
  have hK := checkAndPruneIfNeeded_core Y flog elog hY
  refine ⟨hK.1, ?_, ?_, rfl⟩
  · show (checkAndPruneIfNeeded Y).pendingGotchi = none
    rw [hK.2.1, hpg]
  · show (checkAndPruneIfNeeded Y).pendingFeeding = []
    rw [hK.2.2.1, hpf]

theorem flushGotchiState_noPending (K : EngineState) (hpg : K.pendingGotchi = none) :
    flushGotchiState K = { K with gotchiTimer := false } := by
  unfold flushGotchiState
  simp [hpg]

theorem flushFeedingRecords_noPending (K : EngineState) (hpf : K.pendingFeeding = []) :
    flushFeedingRecords K = { K with feedingTimer := false } := by
  unfold flushFeedingRecords
  simp [hpf]

theorem saveExpression_quiet (s : EngineState) (j : Json) (hm : s.memoryOnlyMode = false)
    (hb : s.behavior = .ok) (hpe : s.pendingExpressions = []) :
    saveExpression j s = { s with pendingExpressions := [j], expressionTimer := true } := by
  have hb2 : s.behavior ≠ .failAll := by rw [hb]; intro hx; cases hx
  unfold saveExpression
  dsimp only
  rw [hpe]
  rw [@isLocalStorageAvailable_of_ok { s with pendingExpressions := [] ++ [j] } hm hb2]
  dsimp only
  rw [if_neg (by simp)]
  simp

theorem flushExpressions_write_core (W : EngineState) (flog elog : List Json) (j : Json)
    (hb : W.behavior = .ok) (hm : W.memoryOnlyMode = false) (hg : W.slots.gotchi = none)
    (hf : FeedSlotWF W flog) (he : ExprSlotWF W elog)
    (hpg : W.pendingGotchi = none) (hpf : W.pendingFeeding = [])
    (hpe : W.pendingExpressions = [j]) :
    CoreInv (flushExpressions W) flog (elog ++ [j]) ∧
    (flushExpressions W).pendingGotchi = none ∧
    (flushExpressions W).pendingFeeding = [] ∧
    (flushExpressions W).pendingExpressions = [] := by
  have hb2 : W.behavior ≠ .failAll := by rw [hb]; intro hx; cases hx
  unfold flushExpressions
  dsimp only
  rw [if_neg (by simp [hpe])]
  rw [@isLocalStorageAvailable_of_ok { W with expressionTimer := false } hm hb2]
  dsimp only
  rcases he with he | ⟨l, p, he, hsuf, hlen⟩
  · rw [@getExpressions_none { W with expressionTimer := false } MAX_EXPRESSIONS hm hb2 he]
    dsimp only [List.nil_append]
    rw [hpe]
    rw [@setItem_ok { W with pendingExpressions := [j], expressionTimer := false } hb
        SKey.expressions (StoredVal.json (Json.arr (jsSliceNeg MAX_EXPRESSIONS [j])) 0)]
    dsimp only
    exact exprTail_core _ flog (elog ++ [j])
      ⟨hb, hm, hg, hf,
        Or.inr ⟨jsSliceNeg MAX_EXPRESSIONS [j], 0, rfl,
          by
            rw [jsSliceNeg_of_length_le
              (by simp [MAX_EXPRESSIONS] : ([j] : List Json).length ≤ MAX_EXPRESSIONS)]
            exact List.suffix_append elog [j],
          le_trans (jsSliceNeg_length_le _ _) (by simp [MAX_EXPRESSIONS])⟩⟩ hpg hpf
  · rw [@getExpressions_arr { W with expressionTimer := false } l p MAX_EXPRESSIONS hm hb2 he]
    dsimp only
    rw [jsSliceNeg_of_length_le (show l.length ≤ MAX_EXPRESSIONS from hlen), hpe]
    rw [@setItem_ok { W with pendingExpressions := [j], expressionTimer := false } hb
        SKey.expressions (StoredVal.json (Json.arr (jsSliceNeg MAX_EXPRESSIONS (l ++ [j]))) 0)]
    dsimp only
    exact exprTail_core _ flog (elog ++ [j])
      ⟨hb, hm, hg, hf,
        Or.inr ⟨jsSliceNeg MAX_EXPRESSIONS (l ++ [j]), 0, rfl,
          (jsSliceNeg_suffix _ _).trans (suffix_append_one hsuf j),
          le_trans (le_of_eq (jsSliceNeg_length _ (by decide) _)) (Nat.min_le_left _ _)⟩⟩
      hpg hpf

theorem applyOp_expr_core (s : EngineState) (flog elog : List Json) (j : Json)
    (h : CoreInv s flog elog) (hpg : s.pendingGotchi = none)
    (hpf : s.pendingFeeding = []) (hpe : s.pendingExpressions = []) :
    CoreInv (applyOp s (.expr j)) flog (elog ++ [j]) ∧
    (applyOp s (.expr j)).pendingGotchi = none ∧
    (applyOp s (.expr j)).pendingFeeding = [] ∧
    (applyOp s (.expr j)).pendingExpressions = [] := by
  obtain ⟨hb, hm, hg, hf, he⟩ := h
  unfold applyOp flushAll
  dsimp only
  rw [saveExpression_quiet s j hm hb hpe]
  rw [flushGotchiState_noPending { s with pendingExpressions := [j], expressionTimer := true }
      hpg]
  rw [flushFeedingRecords_noPending { ({ s with pendingExpressions := [j], expressionTimer := true } : EngineState) with gotchiTimer := false } hpf]
  exact flushExpressions_write_core _ flog elog j hb hm hg hf he hpg hpf rfl

theorem runOps_inv (ops : List SaveOp) : ∀ (s : EngineState) (flog elog : List Json),
    CoreInv s flog elog → s.pendingGotchi = none → s.pendingFeeding = [] →
    s.pendingExpressions = [] →
    CoreInv (List.foldl applyOp s ops) (flog ++ feedLog ops) (elog ++ exprLog ops) := by
  induction ops with
  | nil =>
    intro s flog elog h hpg hpf hpe
    simpa [feedLog, exprLog] using h
  | cons op tl ih =>
    intro s flog elog h hpg hpf hpe
    cases op with
    | feed j =>
      have hstep := applyOp_feed_core s flog elog j h hpg hpf hpe
      have hrec := ih (applyOp s (.feed j)) (flog ++ [j]) elog hstep.1 hstep.2.1
        hstep.2.2.1 hstep.2.2.2
      simpa [feedLog, exprLog, List.append_assoc] using hrec
    | expr j =>
      have hstep := applyOp_expr_core s flog elog j h hpg hpf hpe
      have hrec := ih (applyOp s (.expr j)) flog (elog ++ [j]) hstep.1 hstep.2.1
        hstep.2.2.1 hstep.2.2.2
      simpa [feedLog, exprLog, List.append_assoc] using hrec

/-- Claim C3: after any sequence of `saveFeedingRecord`/`saveExpression`
calls each followed by a flush, the persisted feeding-history store never
holds more than 1000 records and the persisted expressions store never
holds more than 500 entries, and each store holds a suffix of the
sequence of records saved to it — the most recently saved entries in
their original order, with the oldest evicted first. -/
theorem c3_caps_after_flushes (ops : List SaveOp) :
    (feedingStored (runOps ops)).length ≤ 1000 ∧
    feedingStored (runOps ops) <:+ feedLog ops ∧
    (expressionsStored (runOps ops)).length ≤ 500 ∧
    expressionsStored (runOps ops) <:+ exprLog ops := by
  have h := runOps_inv ops initState [] []
    ⟨rfl, rfl, rfl, Or.inl rfl, Or.inl rfl⟩ rfl rfl rfl
  obtain ⟨-, -, -, hf, he⟩ := h
  unfold runOps
  constructor
  · rcases hf with hf | ⟨l, p, hf, hsuf, hlen⟩ <;>
      simp [feedingStored, storedList, hf]
    exact hlen
  constructor
  · rcases hf with hf | ⟨l, p, hf, hsuf, hlen⟩ <;>
      simp [feedingStored, storedList, hf]
    simpa using hsuf
  constructor
  · rcases he with he | ⟨l, p, he, hsuf, hlen⟩ <;>
      simp [expressionsStored, storedList, he]
    exact hlen
  · rcases he with he | ⟨l, p, he, hsuf, hlen⟩ <;>
      simp [expressionsStored, storedList, he]
    simpa using hsuf
